import Mathlib

/-!
A verification development for the substrate batch signer
(`processor/src/substrate_signer.rs`): a threshold Schnorr signing
coordinator that drives batches through a two-round FROST-style protocol,
persisting progress to a durable key-value store so that a reboot can never
reuse a round-one nonce.

The embedding is shallow: 32-byte identifiers become `Nat`, the four
in-memory `HashMap`s become association lists with replace-on-insert
semantics, the durable store becomes a record of key sets, and the
cryptographic machines of the external `frost` crate become opaque tokens
(their internals are an external collaborator; only their control flow,
success or failure, matters here).  Rust panics (`todo!`, `panic!`,
`assert!`, indexing and `unwrap` on maps) are reflected as an explicit
`Except` error so that their reachability can be reasoned about.
-/

/-! ## Association-list maps (model of `std::collections::HashMap`) -/

abbrev Map (α : Type) : Type := List (Nat × α)

namespace Map

def get {α : Type} : Map α → Nat → Option α
  | [], _ => none
  | (k, v) :: rest, k2 => if k = k2 then some v else get rest k2

def remove {α : Type} : Map α → Nat → Map α
  | [], _ => []
  | (k, v) :: rest, k2 => if k = k2 then remove rest k2 else (k, v) :: remove rest k2

def insert {α : Type} (m : Map α) (k : Nat) (v : α) : Map α :=
  (k, v) :: remove m k

def contains {α : Type} (m : Map α) (k : Nat) : Bool :=
  (get m k).isSome

theorem get_remove_self {α : Type} (m : Map α) (k : Nat) :
    get (remove m k) k = none := by
  induction m with
  | nil => rfl
  | cons p rest ih =>
    rcases p with ⟨pk, pv⟩
    simp only [remove]
    by_cases h : pk = k
    · simp only [h, if_true]; exact ih
    · simp only [h, if_false, get, ih]

theorem get_remove_ne {α : Type} (m : Map α) (k k2 : Nat) (h : k ≠ k2) :
    get (remove m k) k2 = get m k2 := by
  induction m with
  | nil => rfl
  | cons p rest ih =>
    rcases p with ⟨pk, pv⟩
    simp only [remove, get]
    by_cases hp : pk = k
    · subst hp
      simp only [if_true, ih]
      rw [if_neg h]
    · simp only [hp, if_false, get]
      by_cases hq : pk = k2
      · simp [hq]
      · simp only [hq, if_false]; exact ih

theorem get_insert_self {α : Type} (m : Map α) (k : Nat) (v : α) :
    get (insert m k v) k = some v := by
  simp [insert, get]

theorem get_insert_ne {α : Type} (m : Map α) (k k2 : Nat) (v : α) (h : k ≠ k2) :
    get (insert m k v) k2 = get m k2 := by
  simp only [insert, get, h, if_false]
  exact get_remove_ne m k k2 h

theorem remove_eq_of_get_none {α : Type} (m : Map α) (k : Nat)
    (h : get m k = none) : remove m k = m := by
  induction m with
  | nil => rfl
  | cons p rest ih =>
    rcases p with ⟨pk, pv⟩
    simp only [get] at h
    by_cases hp : pk = k
    · rw [if_pos hp] at h; simp at h
    · simp only [hp, if_false] at h
      simp only [remove, hp, if_false, ih h]

theorem contains_eq_false_iff {α : Type} (m : Map α) (k : Nat) :
    contains m k = false ↔ get m k = none := by
  simp [contains, Option.isSome]
  constructor
  · intro h; cases hg : get m k with
    | none => rfl
    | some v => rw [hg] at h; simp at h
  · intro h; rw [h]

theorem contains_eq_true_iff {α : Type} (m : Map α) (k : Nat) :
    contains m k = true ↔ ∃ v, get m k = some v := by
  simp [contains, Option.isSome]
  constructor
  · intro h; cases hg : get m k with
    | none => rw [hg] at h; simp at h
    | some v => exact ⟨v, rfl⟩
  · intro ⟨v, hv⟩; rw [hv]

theorem contains_remove_self {α : Type} (m : Map α) (k : Nat) :
    contains (remove m k) k = false := by
  rw [contains_eq_false_iff]; exact get_remove_self m k

theorem contains_remove_ne {α : Type} (m : Map α) (k k2 : Nat) (h : k ≠ k2) :
    contains (remove m k) k2 = contains m k2 := by
  simp [contains, get_remove_ne m k k2 h]

theorem contains_insert_self {α : Type} (m : Map α) (k : Nat) (v : α) :
    contains (insert m k v) k = true := by
  simp [contains, get_insert_self]

theorem contains_insert_ne {α : Type} (m : Map α) (k k2 : Nat) (v : α) (h : k ≠ k2) :
    contains (insert m k v) k2 = contains m k2 := by
  simp [contains, get_insert_ne m k k2 v h]

theorem insert_insert_self {α : Type} (m : Map α) (k : Nat) (v : α) :
    insert (insert m k v) k v = insert m k v := by
  simp only [insert, remove, if_true]
  rw [remove_eq_of_get_none _ _ (get_remove_self m k)]

theorem contains_of_contains_remove {α : Type} (m : Map α) (k B : Nat)
    (h : contains (remove m k) B = true) : contains m B = true := by
  by_cases hB : k = B
  · subst hB; rw [contains_remove_self] at h; cases h
  · rw [contains_remove_ne m k B hB] at h; exact h

theorem contains_remove_of_not {α : Type} (m : Map α) (k B : Nat)
    (h : contains m B = false) : contains (remove m k) B = false := by
  by_cases hB : k = B
  · subst hB; exact contains_remove_self m k
  · rw [contains_remove_ne m k B hB]; exact h

theorem contains_insert_elim {α : Type} (m : Map α) (k B : Nat) (v : α)
    (h : contains (insert m k v) B = true) : B = k ∨ contains m B = true := by
  by_cases hB : k = B
  · exact Or.inl hB.symm
  · rw [contains_insert_ne m k B v hB] at h; exact Or.inr h

theorem contains_insert_of {α : Type} (m : Map α) (k B : Nat) (v : α)
    (h : contains m B = true) : contains (insert m k v) B = true := by
  by_cases hB : k = B
  · subst hB; exact contains_insert_self m k v
  · rw [contains_insert_ne m k B v hB]; exact h

theorem isSome_get_insert {α : Type} (m : Map α) (k B : Nat) (v : α)
    (h : (get m B).isSome = true) : (get (insert m k v) B).isSome = true := by
  by_cases hB : k = B
  · subst hB; rw [get_insert_self]; rfl
  · rw [get_insert_ne m k B v hB]; exact h

end Map

/-! ## Data model -/

/-- `SignId`: `(group_key_bytes, batch_id, attempt_index)`, identifying one
attempt at signing one batch.  Key bytes and the 32-byte batch id are
abstracted to `Nat`. -/
structure SignId where
  key : Nat
  id : Nat
  attempt : Nat
deriving DecidableEq, Repr

/-- A batch: identified by the source block hash (`block`); the rest of the
payload is abstracted into one field. -/
structure Batch where
  block : Nat
  instructions : Nat
deriving DecidableEq, Repr

/-- Canonical SCALE encoding of a batch, abstracted to an injective pairing. -/
def Batch.encode (b : Batch) : Nat := Nat.pair b.block b.instructions

/-- A `(Batch, Signature)` pair; the signature is abstracted to `Nat`. -/
structure SignedBatch where
  batch : Batch
  signature : Nat
deriving DecidableEq, Repr

/-- A wire blob received from a peer: either it parses to an abstract value
or it is malformed.  Malformed blobs are what make the `read_preprocess` and
`read_share` calls of the frost crate fail. -/
inductive Wire where
  | valid (v : Nat)
  | malformed
deriving DecidableEq, Repr

/-- Abstract round-one FROST machine (`AlgorithmSignMachine` of the frost
crate); it owns the secret nonce produced at preprocess time. -/
structure AlgorithmSignMachine where
  nonce : Nat
deriving DecidableEq, Repr

/-- Abstract round-two FROST machine (`AlgorithmSignatureMachine`). -/
structure AlgorithmSignatureMachine where
  nonce : Nat
deriving DecidableEq, Repr

/-- Model of `machine.preprocess(&mut OsRng)`: consumes external randomness
(passed explicitly as `rand`) and returns the round-one machine together
with the serialized preprocess blob. -/
def machinePreprocess (rand : Nat) : AlgorithmSignMachine × Nat :=
  ({ nonce := rand }, rand)

/-- Model of `machine.sign(preprocesses, msg)`: advances to round two and
yields the serialized share. -/
def machineSign (m : AlgorithmSignMachine) (preprocesses : List (Nat × Nat))
    (msg : Nat) : AlgorithmSignatureMachine × Nat :=
  ({ nonce := m.nonce }, Nat.pair m.nonce msg + preprocesses.length)

/-- Model of `machine.complete(shares)`: yields the final signature. -/
def machineComplete (m : AlgorithmSignatureMachine) (shares : List (Nat × Nat)) : Nat :=
  Nat.pair m.nonce shares.length

/-- Model of draining a map of peer blobs through the machine parser
(`read_preprocess` / `read_share` + `collect::<Result<_, _>>`): any
malformed blob fails the whole collection. -/
def collectParsed : List (Nat × Wire) → Option (List (Nat × Nat))
  | [] => some []
  | (l, Wire.valid v) :: rest => (collectParsed rest).map (fun r => (l, v) :: r)
  | (_, Wire.malformed) :: _ => none

/-- Outbound processor messages carried by events. -/
inductive ProcessorMessage where
  | batchPreprocess (id : SignId) (preprocess : Nat)
  | batchShare (id : SignId) (share : Nat)
deriving DecidableEq, Repr

/-- `SubstrateSignerEvent`: the host-drained output queue elements. -/
inductive SubstrateSignerEvent where
  | processorMessage (msg : ProcessorMessage)
  | signedBatch (batch : SignedBatch)
deriving DecidableEq, Repr

/-- Inbound coordinator messages. -/
inductive CoordinatorMessage where
  | batchPreprocesses (id : SignId) (preprocesses : List (Nat × Wire))
  | batchShares (id : SignId) (shares : List (Nat × Wire))
  | batchReattempt (id : SignId)
deriving DecidableEq, Repr

/-! ## Durable store (`SubstrateSignerDb`)

The store is a key-value database; the signer writes under three key
discriminants, modelled as three disjoint key sets.  `put` of a sentinel
that is already present leaves the store unchanged (same key, same value). -/

structure Store where
  completedKeys : List Nat
  attemptKeys : List SignId
  batchKeys : Map SignedBatch
deriving DecidableEq, Repr

namespace Store

def emptyStore : Store := { completedKeys := [], attemptKeys := [], batchKeys := [] }

/-- `fn completed(&self, id) -> bool`. -/
def completed (s : Store) (id : Nat) : Bool := decide (id ∈ s.completedKeys)

/-- `fn complete(txn, id)`: `txn.put(completed_key(id), [1])`. -/
def complete (s : Store) (id : Nat) : Store :=
  if id ∈ s.completedKeys then s else { s with completedKeys := id :: s.completedKeys }

/-- `fn has_attempt(&mut self, id) -> bool`. -/
def has_attempt (s : Store) (sid : SignId) : Bool := decide (sid ∈ s.attemptKeys)

/-- `fn attempt(txn, id)`: `txn.put(attempt_key(id), [])`. -/
def attempt (s : Store) (sid : SignId) : Store :=
  if sid ∈ s.attemptKeys then s else { s with attemptKeys := sid :: s.attemptKeys }

/-- `fn save_batch(txn, batch)`: put at key `batch.batch.block`. -/
def save_batch (s : Store) (b : SignedBatch) : Store :=
  { s with batchKeys := Map.insert s.batchKeys b.batch.block b }

theorem completed_complete_self (s : Store) (id : Nat) :
    completed (complete s id) id = true := by
  simp only [complete, completed]
  by_cases h : id ∈ s.completedKeys <;> simp [h]

theorem completed_complete (s : Store) (id id2 : Nat) (h : completed s id2 = true) :
    completed (complete s id) id2 = true := by
  simp only [completed, decide_eq_true_eq] at h
  simp only [complete, completed]
  by_cases hm : id ∈ s.completedKeys <;> simp [hm, h]

theorem complete_eq_of_completed (s : Store) (id : Nat) (h : completed s id = true) :
    complete s id = s := by
  simp only [completed, decide_eq_true_eq] at h
  simp [complete, h]

theorem has_attempt_attempt_self (s : Store) (sid : SignId) :
    has_attempt (attempt s sid) sid = true := by
  simp only [attempt, has_attempt]
  by_cases h : sid ∈ s.attemptKeys <;> simp [h]

theorem has_attempt_attempt (s : Store) (sid sid2 : SignId)
    (h : has_attempt s sid2 = true) : has_attempt (attempt s sid) sid2 = true := by
  simp only [has_attempt, decide_eq_true_eq] at h
  simp only [attempt, has_attempt]
  by_cases hm : sid ∈ s.attemptKeys <;> simp [hm, h]

theorem completed_attempt (s : Store) (sid : SignId) (id : Nat) :
    completed (attempt s sid) id = completed s id := by
  simp only [attempt]
  by_cases hm : sid ∈ s.attemptKeys <;> simp [hm, completed]

theorem completed_save_batch (s : Store) (b : SignedBatch) (id : Nat) :
    completed (save_batch s b) id = completed s id := rfl

theorem has_attempt_complete (s : Store) (id : Nat) (sid : SignId) :
    has_attempt (complete s id) sid = has_attempt s sid := by
  simp only [complete]
  by_cases hm : id ∈ s.completedKeys <;> simp [hm, has_attempt]

theorem has_attempt_save_batch (s : Store) (b : SignedBatch) (sid : SignId) :
    has_attempt (save_batch s b) sid = has_attempt s sid := rfl

theorem batchKeys_attempt (s : Store) (sid : SignId) :
    (attempt s sid).batchKeys = s.batchKeys := by
  unfold attempt
  by_cases h : sid ∈ s.attemptKeys <;> simp [h]

theorem batchKeys_complete (s : Store) (id : Nat) :
    (complete s id).batchKeys = s.batchKeys := by
  unfold complete
  by_cases h : id ∈ s.completedKeys <;> simp [h]

theorem completed_complete_elim (s : Store) (id B : Nat)
    (h : completed (complete s id) B = true) : B = id ∨ completed s B = true := by
  unfold complete at h
  by_cases hm : id ∈ s.completedKeys
  · rw [if_pos hm] at h; exact Or.inr h
  · rw [if_neg hm] at h
    simp only [completed, decide_eq_true_eq, List.mem_cons] at h
    rcases h with h | h
    · exact Or.inl h
    · right; simp [completed, h]

end Store

/-! ## The signer state (`SubstrateSigner`) -/

structure SubstrateSigner where
  db : Store
  /-- Group key bytes of the immutable `ThresholdKeys`. -/
  keys : Nat
  signable : Map Batch
  attempt : Map Nat
  preprocessing : Map AlgorithmSignMachine
  signing : Map AlgorithmSignatureMachine
  events : List SubstrateSignerEvent
deriving DecidableEq, Repr

/-- Rust panics reachable in the signer, reflected as explicit errors:
`todo!` on malicious peer data, the `panic!` in the shares handler, the
`signable` index, the `unwrap`, and the three trailing `assert!`s. -/
inductive SignerFault where
  | todoMalicious
  | neverPreprocessedYetSigning
  | signableIndexMissing
  | unwrapSignableMissing
  | assertAttemptRemove
  | assertPreprocessingRemove
  | assertSigningRemove
deriving DecidableEq, Repr

namespace SubstrateSigner

/-- `fn new(db, keys)`. -/
def new (db : Store) (keys : Nat) : SubstrateSigner :=
  { db := db, keys := keys, signable := [], attempt := [],
    preprocessing := [], signing := [], events := [] }

/-- `fn verify_id(&self, id) -> Result<(), ()>`: require an in-memory
attempt for the batch id, equal to the attempt of the message. -/
def verify_id (s : SubstrateSigner) (id : SignId) : Bool :=
  match Map.get s.attempt id.id with
  | none => false
  | some a => decide (a = id.attempt)

/-- `async fn attempt(&mut self, id, attempt)` (the spec calls it
`start_attempt`; the method shares its name with the `attempt` field).
`rand` is the randomness `OsRng` would supply to the preprocess. -/
def start_attempt (s : SubstrateSigner) (id : Nat) (attempt : Nat) (rand : Nat) :
    SubstrateSigner :=
  -- if self.db.completed(id) { return }
  if s.db.completed id then s
  -- if let Some(curr) = self.attempt.get(&id) { if curr >= attempt { return } }
  else if (match Map.get s.attempt id with
           | some curr => decide (attempt ≤ curr)
           | none => false) then s
  -- if !self.signable.contains_key(&id) { return }
  else if Map.contains s.signable id = false then s
  else
    -- delete any existing machines; update the attempt number
    let s1 : SubstrateSigner :=
      { s with preprocessing := Map.remove s.preprocessing id,
               signing := Map.remove s.signing id,
               attempt := Map.insert s.attempt id attempt }
    let sid : SignId := { key := s1.keys, id := id, attempt := attempt }
    -- replay guard: only run if this has not already been attempted
    if s1.db.has_attempt sid then s1
    else
      -- txn: put attempt sentinel; commit
      let s2 : SubstrateSigner := { s1 with db := Store.attempt s1.db sid }
      let mp := machinePreprocess rand
      { s2 with
        preprocessing := Map.insert s2.preprocessing id mp.1,
        events := s2.events ++
          [SubstrateSignerEvent.processorMessage
            (ProcessorMessage.batchPreprocess sid mp.2)] }

/-- `async fn sign(&mut self, batch)`. -/
def sign (s : SubstrateSigner) (batch : Batch) (rand : Nat) : SubstrateSigner :=
  if s.db.completed batch.block then s
  else
    let s1 : SubstrateSigner :=
      { s with signable := Map.insert s.signable batch.block batch }
    start_attempt s1 batch.block 0 rand

/-- `async fn handle(&mut self, msg)`. -/
def handle (s : SubstrateSigner) (msg : CoordinatorMessage) (rand : Nat) :
    Except SignerFault SubstrateSigner :=
  match msg with
  | CoordinatorMessage.batchPreprocesses id preprocesses =>
    if verify_id s id = false then Except.ok s
    else
      match Map.get s.preprocessing id.id with
      | none => Except.ok s
      | some machine =>
        let s1 : SubstrateSigner :=
          { s with preprocessing := Map.remove s.preprocessing id.id }
        match collectParsed preprocesses with
        | none => Except.error SignerFault.todoMalicious
        | some parsed =>
          match Map.get s1.signable id.id with
          | none => Except.error SignerFault.signableIndexMissing
          | some b =>
            let ms := machineSign machine parsed (Batch.encode b)
            let s2 : SubstrateSigner :=
              { s1 with signing := Map.insert s1.signing id.id ms.1 }
            Except.ok
              { s2 with events := s2.events ++
                  [SubstrateSignerEvent.processorMessage
                    (ProcessorMessage.batchShare id ms.2)] }
  | CoordinatorMessage.batchShares id shares =>
    if verify_id s id = false then Except.ok s
    else
      match Map.get s.signing id.id with
      | none =>
        if Map.contains s.preprocessing id.id then
          Except.error SignerFault.neverPreprocessedYetSigning
        else Except.ok s
      | some machine =>
        let s1 : SubstrateSigner :=
          { s with signing := Map.remove s.signing id.id }
        match collectParsed shares with
        | none => Except.error SignerFault.todoMalicious
        | some parsed =>
          let sig := machineComplete machine parsed
          match Map.get s1.signable id.id with
          | none => Except.error SignerFault.unwrapSignableMissing
          | some b =>
            let s2 : SubstrateSigner :=
              { s1 with signable := Map.remove s1.signable id.id }
            let sb : SignedBatch := { batch := b, signature := sig }
            -- txn: save_batch; complete; commit
            let s3 : SubstrateSigner :=
              { s2 with db := Store.complete (Store.save_batch s2.db sb) id.id }
            if Map.get s3.attempt id.id = none then
              Except.error SignerFault.assertAttemptRemove
            else
              let s4 : SubstrateSigner :=
                { s3 with attempt := Map.remove s3.attempt id.id }
              if Map.contains s4.preprocessing id.id then
                Except.error SignerFault.assertPreprocessingRemove
              else if Map.contains s4.signing id.id then
                Except.error SignerFault.assertSigningRemove
              else
                Except.ok
                  { s4 with events := s4.events ++
                      [SubstrateSignerEvent.signedBatch sb] }
  | CoordinatorMessage.batchReattempt id =>
    Except.ok (start_attempt s id.id id.attempt rand)

/-- `fn batch_signed(&mut self, block)`. -/
def batch_signed (s : SubstrateSigner) (block : Nat) : SubstrateSigner :=
  let s1 : SubstrateSigner := { s with db := Store.complete s.db block }
  { s1 with signable := Map.remove s1.signable block,
            attempt := Map.remove s1.attempt block,
            preprocessing := Map.remove s1.preprocessing block,
            signing := Map.remove s1.signing block }

end SubstrateSigner

/-! ## Traces: host calls, lifetimes, and crash-restart sequences -/

/-- One host call into the signer.  The `rand` of signing calls is the
randomness the preprocess would draw from `OsRng`. -/
inductive Op where
  | opSign (batch : Batch) (rand : Nat)
  | opHandle (msg : CoordinatorMessage) (rand : Nat)
  | opBatchSigned (block : Nat)
deriving DecidableEq, Repr

def step (s : SubstrateSigner) : Op → Except SignerFault SubstrateSigner
  | Op.opSign b r => Except.ok (SubstrateSigner.sign s b r)
  | Op.opHandle m r => SubstrateSigner.handle s m r
  | Op.opBatchSigned b => Except.ok (SubstrateSigner.batch_signed s b)

/-- Run a sequence of host calls; a Rust panic aborts the run. -/
def runOps : SubstrateSigner → List Op → Except SignerFault SubstrateSigner
  | s, [] => Except.ok s
  | s, op :: ops =>
    match step s op with
    | Except.ok s1 => runOps s1 ops
    | Except.error e => Except.error e

/-- A state is reachable when some sequence of host calls produces it from a
fresh instance (over an arbitrary pre-existing durable store, which covers
post-reboot instances). -/
def Reachable (s : SubstrateSigner) : Prop :=
  ∃ db keys ops, runOps (SubstrateSigner.new db keys) ops = Except.ok s

/-- One process lifetime: run until the op list is exhausted or the process
dies on a panic.  Every event pushed before the death remains emitted. -/
def runLifetime : SubstrateSigner → List Op → SubstrateSigner
  | s, [] => s
  | s, op :: ops =>
    match step s op with
    | Except.ok s1 => runLifetime s1 ops
    | Except.error _ => s

/-- A crash-restart sequence: each element is the host calls of one process
lifetime; a crash drops all memory but keeps the durable store.  Returns
every event emitted across all lifetimes. -/
def runCrashes (keys : Nat) : Store → List (List Op) → List SubstrateSignerEvent
  | _, [] => []
  | db, ops :: rest =>
    let s := runLifetime (SubstrateSigner.new db keys) ops
    s.events ++ runCrashes keys s.db rest

/-! ## Event observations -/

/-- Number of `BatchPreprocess` events carrying batch id `B`, attempt `A`. -/
def preprocessCount (B A : Nat) (evts : List SubstrateSignerEvent) : Nat :=
  (evts.filter (fun e =>
    match e with
    | SubstrateSignerEvent.processorMessage (ProcessorMessage.batchPreprocess sid _) =>
      decide (sid.id = B ∧ sid.attempt = A)
    | _ => false)).length

/-- Number of `SignedBatch` events for batch id `B`. -/
def signedCount (B : Nat) (evts : List SubstrateSignerEvent) : Nat :=
  (evts.filter (fun e =>
    match e with
    | SubstrateSignerEvent.signedBatch sb => decide (sb.batch.block = B)
    | _ => false)).length

/-- Tags of the two `SignId`-carrying message kinds. -/
inductive RoundTag where
  | pre
  | shr
deriving DecidableEq, Repr

/-- The tag of an event when it carries `SignId` batch id `B`, attempt `A`. -/
def eventTag (B A : Nat) : SubstrateSignerEvent → Option RoundTag
  | SubstrateSignerEvent.processorMessage (ProcessorMessage.batchPreprocess sid _) =>
    if sid.id = B ∧ sid.attempt = A then some RoundTag.pre else none
  | SubstrateSignerEvent.processorMessage (ProcessorMessage.batchShare sid _) =>
    if sid.id = B ∧ sid.attempt = A then some RoundTag.shr else none
  | SubstrateSignerEvent.signedBatch _ => none

/-- The subsequence of round messages emitted for `(B, A)`. -/
def sidTrace (B A : Nat) (evts : List SubstrateSignerEvent) : List RoundTag :=
  evts.filterMap (eventTag B A)

/-- Does an event mention batch id `B` (in its `SignId` or its batch)? -/
def mentions (B : Nat) : SubstrateSignerEvent → Bool
  | SubstrateSignerEvent.processorMessage (ProcessorMessage.batchPreprocess sid _) =>
    decide (sid.id = B)
  | SubstrateSignerEvent.processorMessage (ProcessorMessage.batchShare sid _) =>
    decide (sid.id = B)
  | SubstrateSignerEvent.signedBatch sb => decide (sb.batch.block = B)

/-- Events mentioning batch id `B`. -/
def eventsAbout (B : Nat) (evts : List SubstrateSignerEvent) : List SubstrateSignerEvent :=
  evts.filter (mentions B)

/-! ## Event abbreviations and counting lemmas -/

def evPre (sid : SignId) (pp : Nat) : SubstrateSignerEvent :=
  SubstrateSignerEvent.processorMessage (ProcessorMessage.batchPreprocess sid pp)

def evShr (sid : SignId) (sh : Nat) : SubstrateSignerEvent :=
  SubstrateSignerEvent.processorMessage (ProcessorMessage.batchShare sid sh)

def evSigned (sb : SignedBatch) : SubstrateSignerEvent :=
  SubstrateSignerEvent.signedBatch sb

theorem preprocessCount_append (B A : Nat) (l1 l2 : List SubstrateSignerEvent) :
    preprocessCount B A (l1 ++ l2) = preprocessCount B A l1 + preprocessCount B A l2 := by
  simp [preprocessCount, List.filter_append]

theorem signedCount_append (B : Nat) (l1 l2 : List SubstrateSignerEvent) :
    signedCount B (l1 ++ l2) = signedCount B l1 + signedCount B l2 := by
  simp [signedCount, List.filter_append]

theorem sidTrace_append (B A : Nat) (l1 l2 : List SubstrateSignerEvent) :
    sidTrace B A (l1 ++ l2) = sidTrace B A l1 ++ sidTrace B A l2 := by
  simp [sidTrace, List.filterMap_append]

theorem eventsAbout_append (B : Nat) (l1 l2 : List SubstrateSignerEvent) :
    eventsAbout B (l1 ++ l2) = eventsAbout B l1 ++ eventsAbout B l2 := by
  simp [eventsAbout, List.filter_append]

theorem preprocessCount_single_eq (B A : Nat) (sid : SignId) (pp : Nat)
    (h1 : sid.id = B) (h2 : sid.attempt = A) :
    preprocessCount B A [evPre sid pp] = 1 := by
  simp [preprocessCount, evPre, List.filter, h1, h2]

theorem preprocessCount_single_pre (B A : Nat) (sid : SignId) (pp : Nat) :
    preprocessCount B A [evPre sid pp] ≤ 1 := by
  simp only [preprocessCount, evPre, List.filter]
  by_cases h : sid.id = B ∧ sid.attempt = A <;> simp [h]

theorem preprocessCount_single_shr (B A : Nat) (sid : SignId) (sh : Nat) :
    preprocessCount B A [evShr sid sh] = 0 := by
  simp [preprocessCount, evShr, List.filter]

theorem preprocessCount_single_signed (B A : Nat) (sb : SignedBatch) :
    preprocessCount B A [evSigned sb] = 0 := by
  simp [preprocessCount, evSigned, List.filter]

theorem preprocessCount_pos_iff (B A : Nat) (evts : List SubstrateSignerEvent) :
    0 < preprocessCount B A evts ↔
      ∃ sid pp, evPre sid pp ∈ evts ∧ sid.id = B ∧ sid.attempt = A := by
  simp only [preprocessCount, List.length_pos_iff_exists_mem, List.mem_filter]
  constructor
  · rintro ⟨e, he, hf⟩
    match e, hf with
    | SubstrateSignerEvent.processorMessage (ProcessorMessage.batchPreprocess sid pp), hf =>
      simp only [decide_eq_true_eq] at hf
      exact ⟨sid, pp, he, hf.1, hf.2⟩
  · rintro ⟨sid, pp, hm, h1, h2⟩
    refine ⟨evPre sid pp, hm, ?_⟩
    simp [evPre, h1, h2]

theorem signedCount_pos_iff (B : Nat) (evts : List SubstrateSignerEvent) :
    0 < signedCount B evts ↔ ∃ sb, evSigned sb ∈ evts ∧ sb.batch.block = B := by
  simp only [signedCount, List.length_pos_iff_exists_mem, List.mem_filter]
  constructor
  · rintro ⟨e, he, hf⟩
    match e, hf with
    | SubstrateSignerEvent.signedBatch sb, hf =>
      simp only [decide_eq_true_eq] at hf
      exact ⟨sb, he, hf⟩
  · rintro ⟨sb, hm, h1⟩
    refine ⟨evSigned sb, hm, ?_⟩
    simp [evSigned, h1]

theorem eventTag_pre_self (B A : Nat) (sid : SignId) (pp : Nat)
    (h1 : sid.id = B) (h2 : sid.attempt = A) :
    eventTag B A (evPre sid pp) = some RoundTag.pre := by
  simp [eventTag, evPre, h1, h2]

theorem eventTag_shr_self (B A : Nat) (sid : SignId) (sh : Nat)
    (h1 : sid.id = B) (h2 : sid.attempt = A) :
    eventTag B A (evShr sid sh) = some RoundTag.shr := by
  simp [eventTag, evShr, h1, h2]

theorem sidTrace_single_signed (B A : Nat) (sb : SignedBatch) :
    sidTrace B A [evSigned sb] = [] := by
  simp [sidTrace, eventTag, evSigned]

theorem sidTrace_single_pre_other (B A : Nat) (sid : SignId) (pp : Nat)
    (h : ¬(sid.id = B ∧ sid.attempt = A)) :
    sidTrace B A [evPre sid pp] = [] := by
  simp [sidTrace, eventTag, evPre, h]

theorem sidTrace_single_shr_other (B A : Nat) (sid : SignId) (sh : Nat)
    (h : ¬(sid.id = B ∧ sid.attempt = A)) :
    sidTrace B A [evShr sid sh] = [] := by
  simp [sidTrace, eventTag, evShr, h]

theorem sidTrace_single_pre_self (B A : Nat) (sid : SignId) (pp : Nat)
    (h1 : sid.id = B) (h2 : sid.attempt = A) :
    sidTrace B A [evPre sid pp] = [RoundTag.pre] := by
  simp [sidTrace, eventTag_pre_self B A sid pp h1 h2]

theorem sidTrace_single_shr_self (B A : Nat) (sid : SignId) (sh : Nat)
    (h1 : sid.id = B) (h2 : sid.attempt = A) :
    sidTrace B A [evShr sid sh] = [RoundTag.shr] := by
  simp [sidTrace, eventTag_shr_self B A sid sh h1 h2]

theorem pre_mem_sidTrace_iff (B A : Nat) (evts : List SubstrateSignerEvent) :
    RoundTag.pre ∈ sidTrace B A evts ↔
      ∃ sid pp, evPre sid pp ∈ evts ∧ sid.id = B ∧ sid.attempt = A := by
  simp only [sidTrace, List.mem_filterMap]
  constructor
  · rintro ⟨e, he, ht⟩
    match e, ht with
    | SubstrateSignerEvent.processorMessage (ProcessorMessage.batchPreprocess sid pp), ht =>
      simp only [eventTag] at ht
      by_cases h : sid.id = B ∧ sid.attempt = A
      · exact ⟨sid, pp, he, h.1, h.2⟩
      · rw [if_neg h] at ht; cases ht
    | SubstrateSignerEvent.processorMessage (ProcessorMessage.batchShare sid sh), ht =>
      simp only [eventTag] at ht
      by_cases h : sid.id = B ∧ sid.attempt = A
      · rw [if_pos h] at ht; cases ht
      · rw [if_neg h] at ht; cases ht
    | SubstrateSignerEvent.signedBatch sb, ht =>
      simp only [eventTag] at ht; cases ht
  · rintro ⟨sid, pp, hm, h1, h2⟩
    exact ⟨evPre sid pp, hm, eventTag_pre_self B A sid pp h1 h2⟩

/-! ## Characterization of `start_attempt` -/

namespace SubstrateSigner

/-- The state reached when `start_attempt` passes all in-memory guards but
finds the replay sentinel: machines dropped, attempt index updated. -/
def attemptAborted (s : SubstrateSigner) (id a : Nat) : SubstrateSigner :=
  { s with preprocessing := Map.remove s.preprocessing id,
           signing := Map.remove s.signing id,
           attempt := Map.insert s.attempt id a }

/-- The state reached when `start_attempt` runs a fresh attempt. -/
def attemptStarted (s : SubstrateSigner) (id a rand : Nat) : SubstrateSigner :=
  { s with preprocessing := Map.insert (Map.remove s.preprocessing id) id
             (machinePreprocess rand).1,
           signing := Map.remove s.signing id,
           attempt := Map.insert s.attempt id a,
           db := Store.attempt s.db { key := s.keys, id := id, attempt := a },
           events := s.events ++
             [evPre { key := s.keys, id := id, attempt := a } (machinePreprocess rand).2] }

/-- The guard on the current in-memory attempt, as written in the source. -/
def attemptGuard (s : SubstrateSigner) (id a : Nat) : Bool :=
  match Map.get s.attempt id with
  | some curr => decide (a ≤ curr)
  | none => false

theorem start_attempt_eq_of_completed (s : SubstrateSigner) (id a rand : Nat)
    (h : s.db.completed id = true) : start_attempt s id a rand = s := by
  unfold start_attempt
  rw [h]
  simp

theorem start_attempt_eq_of_guard (s : SubstrateSigner) (id a rand : Nat)
    (h1 : s.db.completed id = false) (h2 : attemptGuard s id a = true) :
    start_attempt s id a rand = s := by
  unfold start_attempt
  rw [h1]
  unfold attemptGuard at h2
  rw [h2]
  simp

theorem start_attempt_eq_of_no_signable (s : SubstrateSigner) (id a rand : Nat)
    (h1 : s.db.completed id = false) (h2 : attemptGuard s id a = false)
    (h3 : Map.contains s.signable id = false) :
    start_attempt s id a rand = s := by
  unfold start_attempt
  rw [h1]
  unfold attemptGuard at h2
  rw [h2, h3]
  simp

theorem start_attempt_eq_aborted (s : SubstrateSigner) (id a rand : Nat)
    (h1 : s.db.completed id = false) (h2 : attemptGuard s id a = false)
    (h3 : Map.contains s.signable id = true)
    (h4 : s.db.has_attempt { key := s.keys, id := id, attempt := a } = true) :
    start_attempt s id a rand = attemptAborted s id a := by
  unfold start_attempt
  rw [h1]
  unfold attemptGuard at h2
  rw [h2, h3]
  simp only [Bool.false_eq_true, if_false, Bool.true_eq_false]
  rw [if_pos h4]
  rfl

theorem start_attempt_eq_started (s : SubstrateSigner) (id a rand : Nat)
    (h1 : s.db.completed id = false) (h2 : attemptGuard s id a = false)
    (h3 : Map.contains s.signable id = true)
    (h4 : s.db.has_attempt { key := s.keys, id := id, attempt := a } = false) :
    start_attempt s id a rand = attemptStarted s id a rand := by
  unfold start_attempt
  rw [h1]
  unfold attemptGuard at h2
  rw [h2, h3]
  simp only [Bool.false_eq_true, if_false, Bool.true_eq_false]
  rw [if_neg (by simp [h4])]
  rfl

theorem attemptGuard_false_lt (s : SubstrateSigner) (id a : Nat)
    (h : attemptGuard s id a = false) :
    ∀ c, Map.get s.attempt id = some c → c < a := by
  intro c hc
  unfold attemptGuard at h
  rw [hc] at h
  simp at h
  omega

theorem start_attempt_cases (s : SubstrateSigner) (id a rand : Nat) :
    start_attempt s id a rand = s
    ∨ (s.db.completed id = false
       ∧ (∀ c, Map.get s.attempt id = some c → c < a)
       ∧ Map.contains s.signable id = true
       ∧ s.db.has_attempt { key := s.keys, id := id, attempt := a } = true
       ∧ start_attempt s id a rand = attemptAborted s id a)
    ∨ (s.db.completed id = false
       ∧ (∀ c, Map.get s.attempt id = some c → c < a)
       ∧ Map.contains s.signable id = true
       ∧ s.db.has_attempt { key := s.keys, id := id, attempt := a } = false
       ∧ start_attempt s id a rand = attemptStarted s id a rand) := by
  by_cases h1 : s.db.completed id = true
  · exact Or.inl (start_attempt_eq_of_completed s id a rand h1)
  · rw [Bool.not_eq_true] at h1
    by_cases h2 : attemptGuard s id a = true
    · exact Or.inl (start_attempt_eq_of_guard s id a rand h1 h2)
    · rw [Bool.not_eq_true] at h2
      by_cases h3 : Map.contains s.signable id = true
      · by_cases h4 : s.db.has_attempt { key := s.keys, id := id, attempt := a } = true
        · exact Or.inr (Or.inl ⟨h1, attemptGuard_false_lt s id a h2, h3, h4,
            start_attempt_eq_aborted s id a rand h1 h2 h3 h4⟩)
        · rw [Bool.not_eq_true] at h4
          exact Or.inr (Or.inr ⟨h1, attemptGuard_false_lt s id a h2, h3, h4,
            start_attempt_eq_started s id a rand h1 h2 h3 h4⟩)
      · rw [Bool.not_eq_true] at h3
        exact Or.inl (start_attempt_eq_of_no_signable s id a rand h1 h2 h3)

/-! ## Characterization of `handle` -/

theorem verify_id_eq_true_iff (s : SubstrateSigner) (id : SignId) :
    verify_id s id = true ↔ Map.get s.attempt id.id = some id.attempt := by
  unfold verify_id
  rcases hg : Map.get s.attempt id.id with _ | a
  · simp
  · simp only [decide_eq_true_eq]
    constructor
    · intro h; rw [h]
    · intro h; cases h; rfl

/-- The state reached when peer preprocesses advance the round-one machine:
machine moved from `preprocessing` to `signing`, share event emitted. -/
def preStepped (s : SubstrateSigner) (id : SignId) (m : AlgorithmSignMachine)
    (parsed : List (Nat × Nat)) (b : Batch) : SubstrateSigner :=
  { s with preprocessing := Map.remove s.preprocessing id.id,
           signing := Map.insert s.signing id.id (machineSign m parsed (Batch.encode b)).1,
           events := s.events ++ [evShr id (machineSign m parsed (Batch.encode b)).2] }

/-- The state reached when peer shares complete the signature: the signed
batch is persisted together with the completion sentinel, all session state
for the batch id is dropped, and the `SignedBatch` event is emitted. -/
def sharesCompleted (s : SubstrateSigner) (id : SignId)
    (m : AlgorithmSignatureMachine) (parsed : List (Nat × Nat)) (b : Batch) :
    SubstrateSigner :=
  { s with signing := Map.remove s.signing id.id,
           signable := Map.remove s.signable id.id,
           attempt := Map.remove s.attempt id.id,
           db := Store.complete
             (Store.save_batch s.db { batch := b, signature := machineComplete m parsed })
             id.id,
           events := s.events ++
             [evSigned { batch := b, signature := machineComplete m parsed }] }

theorem handle_pre_eq_of_unverified (s : SubstrateSigner) (id : SignId)
    (pp : List (Nat × Wire)) (rand : Nat) (h : verify_id s id = false) :
    handle s (CoordinatorMessage.batchPreprocesses id pp) rand = Except.ok s := by
  simp only [handle]
  rw [h]
  simp

theorem handle_pre_eq_of_no_machine (s : SubstrateSigner) (id : SignId)
    (pp : List (Nat × Wire)) (rand : Nat) (h : verify_id s id = true)
    (hm : Map.get s.preprocessing id.id = none) :
    handle s (CoordinatorMessage.batchPreprocesses id pp) rand = Except.ok s := by
  simp only [handle]
  rw [h, hm]
  rfl

theorem handle_pre_eq_of_malformed (s : SubstrateSigner) (id : SignId)
    (pp : List (Nat × Wire)) (rand : Nat) (h : verify_id s id = true)
    (m : AlgorithmSignMachine) (hm : Map.get s.preprocessing id.id = some m)
    (hp : collectParsed pp = none) :
    handle s (CoordinatorMessage.batchPreprocesses id pp) rand =
      Except.error SignerFault.todoMalicious := by
  simp only [handle]
  rw [h, hm]
  simp only
  rw [hp]
  rfl

theorem handle_pre_eq_of_no_signable (s : SubstrateSigner) (id : SignId)
    (pp : List (Nat × Wire)) (rand : Nat) (h : verify_id s id = true)
    (m : AlgorithmSignMachine) (hm : Map.get s.preprocessing id.id = some m)
    (parsed : List (Nat × Nat)) (hp : collectParsed pp = some parsed)
    (hb : Map.get s.signable id.id = none) :
    handle s (CoordinatorMessage.batchPreprocesses id pp) rand =
      Except.error SignerFault.signableIndexMissing := by
  simp only [handle]
  rw [h, hm]
  simp only
  rw [hp]
  simp only
  rw [show ({ s with preprocessing := Map.remove s.preprocessing id.id
    : SubstrateSigner }).signable = s.signable from rfl, hb]
  rfl

theorem handle_pre_eq_stepped (s : SubstrateSigner) (id : SignId)
    (pp : List (Nat × Wire)) (rand : Nat) (h : verify_id s id = true)
    (m : AlgorithmSignMachine) (hm : Map.get s.preprocessing id.id = some m)
    (parsed : List (Nat × Nat)) (hp : collectParsed pp = some parsed)
    (b : Batch) (hb : Map.get s.signable id.id = some b) :
    handle s (CoordinatorMessage.batchPreprocesses id pp) rand =
      Except.ok (preStepped s id m parsed b) := by
  simp only [handle]
  rw [h, hm]
  simp only
  rw [hp]
  simp only
  rw [show ({ s with preprocessing := Map.remove s.preprocessing id.id
    : SubstrateSigner }).signable = s.signable from rfl, hb]
  rfl

theorem handle_shares_eq_of_unverified (s : SubstrateSigner) (id : SignId)
    (sh : List (Nat × Wire)) (rand : Nat) (h : verify_id s id = false) :
    handle s (CoordinatorMessage.batchShares id sh) rand = Except.ok s := by
  simp only [handle]
  rw [h]
  simp

theorem handle_shares_eq_of_breach (s : SubstrateSigner) (id : SignId)
    (sh : List (Nat × Wire)) (rand : Nat) (h : verify_id s id = true)
    (hm : Map.get s.signing id.id = none)
    (hpre : Map.contains s.preprocessing id.id = true) :
    handle s (CoordinatorMessage.batchShares id sh) rand =
      Except.error SignerFault.neverPreprocessedYetSigning := by
  simp only [handle]
  rw [h, hm]
  simp only
  rw [if_pos hpre]
  rfl

theorem handle_shares_eq_of_no_machine (s : SubstrateSigner) (id : SignId)
    (sh : List (Nat × Wire)) (rand : Nat) (h : verify_id s id = true)
    (hm : Map.get s.signing id.id = none)
    (hpre : Map.contains s.preprocessing id.id = false) :
    handle s (CoordinatorMessage.batchShares id sh) rand = Except.ok s := by
  simp only [handle]
  rw [h, hm]
  simp only
  have hx : ¬ (Map.contains s.preprocessing id.id = true) := by simp [hpre]
  rw [if_neg hx]
  rfl

theorem handle_shares_eq_of_malformed (s : SubstrateSigner) (id : SignId)
    (sh : List (Nat × Wire)) (rand : Nat) (h : verify_id s id = true)
    (m : AlgorithmSignatureMachine) (hm : Map.get s.signing id.id = some m)
    (hp : collectParsed sh = none) :
    handle s (CoordinatorMessage.batchShares id sh) rand =
      Except.error SignerFault.todoMalicious := by
  simp only [handle]
  rw [h, hm]
  simp only
  rw [hp]
  rfl

theorem handle_shares_eq_of_no_signable (s : SubstrateSigner) (id : SignId)
    (sh : List (Nat × Wire)) (rand : Nat) (h : verify_id s id = true)
    (m : AlgorithmSignatureMachine) (hm : Map.get s.signing id.id = some m)
    (parsed : List (Nat × Nat)) (hp : collectParsed sh = some parsed)
    (hb : Map.get s.signable id.id = none) :
    handle s (CoordinatorMessage.batchShares id sh) rand =
      Except.error SignerFault.unwrapSignableMissing := by
  simp only [handle]
  rw [h, hm]
  simp only
  rw [hp]
  simp only
  rw [show ({ s with signing := Map.remove s.signing id.id
    : SubstrateSigner }).signable = s.signable from rfl, hb]
  rfl

theorem handle_shares_eq_of_assert_pre (s : SubstrateSigner) (id : SignId)
    (sh : List (Nat × Wire)) (rand : Nat) (h : verify_id s id = true)
    (m : AlgorithmSignatureMachine) (hm : Map.get s.signing id.id = some m)
    (parsed : List (Nat × Nat)) (hp : collectParsed sh = some parsed)
    (b : Batch) (hb : Map.get s.signable id.id = some b)
    (hpre : Map.contains s.preprocessing id.id = true) :
    handle s (CoordinatorMessage.batchShares id sh) rand =
      Except.error SignerFault.assertPreprocessingRemove := by
  simp only [handle]
  rw [h, hm]
  simp only
  rw [hp]
  simp only
  rw [show ({ s with signing := Map.remove s.signing id.id
    : SubstrateSigner }).signable = s.signable from rfl, hb]
  simp only
  have ha : ¬ (Map.get s.attempt id.id = none) := by
    rw [verify_id_eq_true_iff] at h
    simp [h]
  rw [if_neg ha]
  rw [if_pos hpre]
  rfl

theorem handle_shares_eq_completed (s : SubstrateSigner) (id : SignId)
    (sh : List (Nat × Wire)) (rand : Nat) (h : verify_id s id = true)
    (m : AlgorithmSignatureMachine) (hm : Map.get s.signing id.id = some m)
    (parsed : List (Nat × Nat)) (hp : collectParsed sh = some parsed)
    (b : Batch) (hb : Map.get s.signable id.id = some b)
    (hpre : Map.contains s.preprocessing id.id = false) :
    handle s (CoordinatorMessage.batchShares id sh) rand =
      Except.ok (sharesCompleted s id m parsed b) := by
  simp only [handle]
  rw [h, hm]
  simp only
  rw [hp]
  simp only
  rw [show ({ s with signing := Map.remove s.signing id.id
    : SubstrateSigner }).signable = s.signable from rfl, hb]
  simp only
  have ha : ¬ (Map.get s.attempt id.id = none) := by
    rw [verify_id_eq_true_iff] at h
    simp [h]
  rw [if_neg ha]
  have hx : ¬ (Map.contains s.preprocessing id.id = true) := by simp [hpre]
  rw [if_neg hx]
  have hy : ¬ (Map.contains (Map.remove s.signing id.id) id.id = true) := by
    simp [Map.contains_remove_self]
  rw [if_neg hy]
  rfl

theorem handle_reattempt_eq (s : SubstrateSigner) (id : SignId) (rand : Nat) :
    handle s (CoordinatorMessage.batchReattempt id) rand =
      Except.ok (start_attempt s id.id id.attempt rand) := rfl

end SubstrateSigner


/-! ## The reachability invariant

Everything the temporal claims need about a live signer state: session-map
coherence, the absorbing nature of the completion sentinel, and the
relation between the event queue and both the store and the session maps. -/

structure SignerInv (s : SubstrateSigner) : Prop where
  pre_signable : ∀ B, Map.contains s.preprocessing B = true →
    Map.contains s.signable B = true
  pre_attempt : ∀ B, Map.contains s.preprocessing B = true →
    Map.contains s.attempt B = true
  sig_signable : ∀ B, Map.contains s.signing B = true →
    Map.contains s.signable B = true
  sig_attempt : ∀ B, Map.contains s.signing B = true →
    Map.contains s.attempt B = true
  mutex : ∀ B, Map.contains s.preprocessing B = true →
    Map.contains s.signing B = false
  signable_block : ∀ B b, Map.get s.signable B = some b → b.block = B
  completed_signable : ∀ B, s.db.completed B = true →
    Map.contains s.signable B = false
  completed_attempt : ∀ B, s.db.completed B = true →
    Map.contains s.attempt B = false
  completed_pre : ∀ B, s.db.completed B = true →
    Map.contains s.preprocessing B = false
  completed_sig : ∀ B, s.db.completed B = true →
    Map.contains s.signing B = false
  signed_db : ∀ sb, evSigned sb ∈ s.events →
    s.db.completed sb.batch.block = true ∧
    (Map.get s.db.batchKeys sb.batch.block).isSome = true
  pre_event_db : ∀ sid pp, evPre sid pp ∈ s.events →
    s.db.has_attempt sid = true ∧ sid.key = s.keys
  trace_shape : ∀ B A, sidTrace B A s.events = [] ∨
    sidTrace B A s.events = [RoundTag.pre] ∨
    sidTrace B A s.events = [RoundTag.pre, RoundTag.shr]
  pre_trace : ∀ B A, Map.get s.attempt B = some A →
    Map.contains s.preprocessing B = true →
    sidTrace B A s.events = [RoundTag.pre]
  sig_trace : ∀ B A, Map.get s.attempt B = some A →
    Map.contains s.signing B = true →
    sidTrace B A s.events = [RoundTag.pre, RoundTag.shr]
  signed_once : ∀ B, signedCount B s.events ≤ 1

theorem inv_new (db : Store) (keys : Nat) : SignerInv (SubstrateSigner.new db keys) := by
  refine ⟨?_, ?_, ?_, ?_, ?_, ?_, ?_, ?_, ?_, ?_, ?_, ?_, ?_, ?_, ?_, ?_⟩ <;>
    intro B <;>
    simp [SubstrateSigner.new, Map.contains, Map.get, sidTrace, signedCount]

namespace SubstrateSigner

theorem inv_attemptAborted (s : SubstrateSigner) (id a : Nat) (hInv : SignerInv s)
    (hcomp : s.db.completed id = false) :
    SignerInv (attemptAborted s id a) := by
  unfold attemptAborted
  refine ⟨?_, ?_, ?_, ?_, ?_, ?_, ?_, ?_, ?_, ?_, ?_, ?_, ?_, ?_, ?_, ?_⟩ <;> dsimp only
  · intro B h
    exact hInv.pre_signable B (Map.contains_of_contains_remove _ _ _ h)
  · intro B h
    have h2 := Map.contains_of_contains_remove _ _ _ h
    by_cases hB : B = id
    · subst hB; cases h.symm.trans (Map.contains_remove_self s.preprocessing B)
    · exact Map.contains_insert_of _ _ _ _ (hInv.pre_attempt B h2)
  · intro B h
    exact hInv.sig_signable B (Map.contains_of_contains_remove _ _ _ h)
  · intro B h
    exact Map.contains_insert_of _ _ _ _
      (hInv.sig_attempt B (Map.contains_of_contains_remove _ _ _ h))
  · intro B h
    have h2 := Map.contains_of_contains_remove _ _ _ h
    exact Map.contains_remove_of_not _ _ _ (hInv.mutex B h2)
  · exact hInv.signable_block
  · exact hInv.completed_signable
  · intro B h
    have hB : B ≠ id := by
      intro he
      rw [he, hcomp] at h
      cases h
    rw [Map.contains_insert_ne _ _ _ _ (fun he => hB he.symm)]
    exact hInv.completed_attempt B h
  · intro B h
    exact Map.contains_remove_of_not _ _ _ (hInv.completed_pre B h)
  · intro B h
    exact Map.contains_remove_of_not _ _ _ (hInv.completed_sig B h)
  · exact hInv.signed_db
  · exact hInv.pre_event_db
  · exact hInv.trace_shape
  · intro B A hA h
    by_cases hB : B = id
    · subst hB; cases h.symm.trans (Map.contains_remove_self s.preprocessing B)
    · rw [Map.get_insert_ne _ _ _ _ (fun he => hB he.symm)] at hA
      rw [Map.contains_remove_ne _ _ _ (fun he => hB he.symm)] at h
      exact hInv.pre_trace B A hA h
  · intro B A hA h
    by_cases hB : B = id
    · subst hB; cases h.symm.trans (Map.contains_remove_self s.signing B)
    · rw [Map.get_insert_ne _ _ _ _ (fun he => hB he.symm)] at hA
      rw [Map.contains_remove_ne _ _ _ (fun he => hB he.symm)] at h
      exact hInv.sig_trace B A hA h
  · exact hInv.signed_once

theorem attemptStarted_trace_nil (s : SubstrateSigner) (id a : Nat) (hInv : SignerInv s)
    (h4 : s.db.has_attempt { key := s.keys, id := id, attempt := a } = false) :
    sidTrace id a s.events = [] := by
  rcases hInv.trace_shape id a with h | h | h
  · exact h
  all_goals {
    exfalso
    have hpre : RoundTag.pre ∈ sidTrace id a s.events := by rw [h]; simp
    rw [pre_mem_sidTrace_iff] at hpre
    rcases hpre with ⟨sid, pp, hmem, h1, h2⟩
    rcases hInv.pre_event_db sid pp hmem with ⟨hha, hkey⟩
    have hsid : sid = { key := s.keys, id := id, attempt := a } := by
      cases sid; simp_all
    rw [hsid] at hha
    rw [hha] at h4
    cases h4 }

theorem inv_attemptStarted (s : SubstrateSigner) (id a rand : Nat) (hInv : SignerInv s)
    (hcomp : s.db.completed id = false)
    (hsig : Map.contains s.signable id = true)
    (h4 : s.db.has_attempt { key := s.keys, id := id, attempt := a } = false) :
    SignerInv (attemptStarted s id a rand) := by
  have htrace := attemptStarted_trace_nil s id a hInv h4
  unfold attemptStarted
  refine ⟨?_, ?_, ?_, ?_, ?_, ?_, ?_, ?_, ?_, ?_, ?_, ?_, ?_, ?_, ?_, ?_⟩ <;> dsimp only
  · intro B h
    rcases Map.contains_insert_elim _ _ _ _ h with hB | hB
    · subst hB; exact hsig
    · exact hInv.pre_signable B (Map.contains_of_contains_remove _ _ _ hB)
  · intro B h
    rcases Map.contains_insert_elim _ _ _ _ h with hB | hB
    · subst hB; exact Map.contains_insert_self _ _ _
    · exact Map.contains_insert_of _ _ _ _
        (hInv.pre_attempt B (Map.contains_of_contains_remove _ _ _ hB))
  · intro B h
    exact hInv.sig_signable B (Map.contains_of_contains_remove _ _ _ h)
  · intro B h
    exact Map.contains_insert_of _ _ _ _
      (hInv.sig_attempt B (Map.contains_of_contains_remove _ _ _ h))
  · intro B h
    rcases Map.contains_insert_elim _ _ _ _ h with hB | hB
    · subst hB; exact Map.contains_remove_self _ _
    · exact Map.contains_remove_of_not _ _ _
        (hInv.mutex B (Map.contains_of_contains_remove _ _ _ hB))
  · exact hInv.signable_block
  · intro B h
    rw [Store.completed_attempt] at h
    exact hInv.completed_signable B h
  · intro B h
    rw [Store.completed_attempt] at h
    have hB : B ≠ id := by
      intro he
      rw [he, hcomp] at h
      cases h
    rw [Map.contains_insert_ne _ _ _ _ (fun he => hB he.symm)]
    exact hInv.completed_attempt B h
  · intro B h
    rw [Store.completed_attempt] at h
    have hB : B ≠ id := by
      intro he
      rw [he, hcomp] at h
      cases h
    rw [Map.contains_insert_ne _ _ _ _ (fun he => hB he.symm)]
    rw [Map.contains_remove_ne _ _ _ (fun he => hB he.symm)]
    exact hInv.completed_pre B h
  · intro B h
    rw [Store.completed_attempt] at h
    exact Map.contains_remove_of_not _ _ _ (hInv.completed_sig B h)
  · intro sb hmem
    rw [List.mem_append] at hmem
    rcases hmem with hmem | hmem
    · rcases hInv.signed_db sb hmem with ⟨h1, h2⟩
      constructor
      · rw [Store.completed_attempt]; exact h1
      · rw [Store.batchKeys_attempt]; exact h2
    · simp [evSigned, evPre] at hmem
  · intro sid pp hmem
    rw [List.mem_append] at hmem
    rcases hmem with hmem | hmem
    · rcases hInv.pre_event_db sid pp hmem with ⟨h1, h2⟩
      exact ⟨Store.has_attempt_attempt _ _ _ h1, h2⟩
    · simp only [List.mem_singleton, evPre, SubstrateSignerEvent.processorMessage.injEq,
        ProcessorMessage.batchPreprocess.injEq] at hmem
      rcases hmem with ⟨h1, h2⟩
      rw [h1]
      exact ⟨Store.has_attempt_attempt_self _ _, rfl⟩
  · intro B A
    rw [sidTrace_append]
    by_cases hBA : B = id ∧ A = a
    · rcases hBA with ⟨hB, hA⟩
      rw [hB, hA, htrace]
      right; left
      rw [sidTrace_single_pre_self id a _ _ rfl rfl]
      rfl
    · rw [sidTrace_single_pre_other B A _ _
        (by simpa using fun h1 h2 => hBA ⟨h1.symm, h2.symm⟩)]
      rw [List.append_nil]
      exact hInv.trace_shape B A
  · intro B A hA h
    rw [sidTrace_append]
    by_cases hB : B = id
    · subst hB
      rw [Map.get_insert_self] at hA
      cases hA
      rw [htrace]
      rw [sidTrace_single_pre_self B a _ _ rfl rfl]
      rfl
    · rw [Map.get_insert_ne _ _ _ _ (fun he => hB he.symm)] at hA
      rw [Map.contains_insert_ne _ _ _ _ (fun he => hB he.symm)] at h
      rw [Map.contains_remove_ne _ _ _ (fun he => hB he.symm)] at h
      rw [sidTrace_single_pre_other B A _ _ (by simp; intro h1; exact absurd h1.symm hB)]
      rw [List.append_nil]
      exact hInv.pre_trace B A hA h
  · intro B A hA h
    by_cases hB : B = id
    · subst hB; cases h.symm.trans (Map.contains_remove_self s.signing B)
    · rw [Map.get_insert_ne _ _ _ _ (fun he => hB he.symm)] at hA
      rw [Map.contains_remove_ne _ _ _ (fun he => hB he.symm)] at h
      rw [sidTrace_append]
      rw [sidTrace_single_pre_other B A _ _ (by simp; intro h1; exact absurd h1.symm hB)]
      rw [List.append_nil]
      exact hInv.sig_trace B A hA h
  · intro B
    rw [signedCount_append]
    rw [show signedCount B [evPre { key := s.keys, id := id, attempt := a }
      (machinePreprocess rand).2] = 0 from rfl]
    simpa using hInv.signed_once B

theorem inv_start_attempt (s : SubstrateSigner) (id a rand : Nat) (hInv : SignerInv s) :
    SignerInv (start_attempt s id a rand) := by
  rcases start_attempt_cases s id a rand with h | ⟨h1, _, h3, _, h⟩ | ⟨h1, _, h3, h4, h⟩
  · rw [h]; exact hInv
  · rw [h]; exact inv_attemptAborted s id a hInv h1
  · rw [h]; exact inv_attemptStarted s id a rand hInv h1 h3 h4

end SubstrateSigner

namespace SubstrateSigner

theorem sign_eq_of_completed (s : SubstrateSigner) (b : Batch) (rand : Nat)
    (h : s.db.completed b.block = true) : sign s b rand = s := by
  unfold sign
  rw [h]
  simp

theorem sign_eq_of_live (s : SubstrateSigner) (b : Batch) (rand : Nat)
    (h : s.db.completed b.block = false) :
    sign s b rand =
      start_attempt { s with signable := Map.insert s.signable b.block b }
        b.block 0 rand := by
  unfold sign
  rw [h]
  simp

theorem inv_insert_signable (s : SubstrateSigner) (b : Batch) (hInv : SignerInv s)
    (hcomp : s.db.completed b.block = false) :
    SignerInv { s with signable := Map.insert s.signable b.block b } := by
  refine ⟨?_, ?_, ?_, ?_, ?_, ?_, ?_, ?_, ?_, ?_, ?_, ?_, ?_, ?_, ?_, ?_⟩ <;> dsimp only
  · intro B h
    exact Map.contains_insert_of _ _ _ _ (hInv.pre_signable B h)
  · exact hInv.pre_attempt
  · intro B h
    exact Map.contains_insert_of _ _ _ _ (hInv.sig_signable B h)
  · exact hInv.sig_attempt
  · exact hInv.mutex
  · intro B b2 h
    by_cases hB : b.block = B
    · subst hB
      rw [Map.get_insert_self] at h
      cases h
      rfl
    · rw [Map.get_insert_ne _ _ _ _ hB] at h
      exact hInv.signable_block B b2 h
  · intro B h
    have hB : B ≠ b.block := by
      intro he
      rw [he, hcomp] at h
      cases h
    rw [Map.contains_insert_ne _ _ _ _ (fun he => hB he.symm)]
    exact hInv.completed_signable B h
  · exact hInv.completed_attempt
  · exact hInv.completed_pre
  · exact hInv.completed_sig
  · exact hInv.signed_db
  · exact hInv.pre_event_db
  · exact hInv.trace_shape
  · exact hInv.pre_trace
  · exact hInv.sig_trace
  · exact hInv.signed_once

theorem inv_sign (s : SubstrateSigner) (b : Batch) (rand : Nat) (hInv : SignerInv s) :
    SignerInv (sign s b rand) := by
  by_cases hc : s.db.completed b.block = true
  · rw [sign_eq_of_completed s b rand hc]; exact hInv
  · rw [Bool.not_eq_true] at hc
    rw [sign_eq_of_live s b rand hc]
    exact inv_start_attempt _ _ _ _ (inv_insert_signable s b hInv hc)

theorem inv_batch_signed (s : SubstrateSigner) (block : Nat) (hInv : SignerInv s) :
    SignerInv (batch_signed s block) := by
  unfold batch_signed
  refine ⟨?_, ?_, ?_, ?_, ?_, ?_, ?_, ?_, ?_, ?_, ?_, ?_, ?_, ?_, ?_, ?_⟩ <;> dsimp only
  · intro B h
    have hB : B ≠ block := by
      intro he
      rw [he] at h
      cases h.symm.trans (Map.contains_remove_self s.preprocessing block)
    rw [Map.contains_remove_ne _ _ _ (fun he => hB he.symm)]
    exact hInv.pre_signable B (Map.contains_of_contains_remove _ _ _ h)
  · intro B h
    have hB : B ≠ block := by
      intro he
      rw [he] at h
      cases h.symm.trans (Map.contains_remove_self s.preprocessing block)
    rw [Map.contains_remove_ne _ _ _ (fun he => hB he.symm)]
    exact hInv.pre_attempt B (Map.contains_of_contains_remove _ _ _ h)
  · intro B h
    have hB : B ≠ block := by
      intro he
      rw [he] at h
      cases h.symm.trans (Map.contains_remove_self s.signing block)
    rw [Map.contains_remove_ne _ _ _ (fun he => hB he.symm)]
    exact hInv.sig_signable B (Map.contains_of_contains_remove _ _ _ h)
  · intro B h
    have hB : B ≠ block := by
      intro he
      rw [he] at h
      cases h.symm.trans (Map.contains_remove_self s.signing block)
    rw [Map.contains_remove_ne _ _ _ (fun he => hB he.symm)]
    exact hInv.sig_attempt B (Map.contains_of_contains_remove _ _ _ h)
  · intro B h
    exact Map.contains_remove_of_not _ _ _
      (hInv.mutex B (Map.contains_of_contains_remove _ _ _ h))
  · intro B b2 h
    by_cases hB : block = B
    · subst hB
      rw [Map.get_remove_self] at h
      cases h
    · rw [Map.get_remove_ne _ _ _ hB] at h
      exact hInv.signable_block B b2 h
  · intro B h
    rcases Store.completed_complete_elim _ _ _ h with hB | hB
    · rw [hB]; exact Map.contains_remove_self _ _
    · exact Map.contains_remove_of_not _ _ _ (hInv.completed_signable B hB)
  · intro B h
    rcases Store.completed_complete_elim _ _ _ h with hB | hB
    · rw [hB]; exact Map.contains_remove_self _ _
    · exact Map.contains_remove_of_not _ _ _ (hInv.completed_attempt B hB)
  · intro B h
    rcases Store.completed_complete_elim _ _ _ h with hB | hB
    · rw [hB]; exact Map.contains_remove_self _ _
    · exact Map.contains_remove_of_not _ _ _ (hInv.completed_pre B hB)
  · intro B h
    rcases Store.completed_complete_elim _ _ _ h with hB | hB
    · rw [hB]; exact Map.contains_remove_self _ _
    · exact Map.contains_remove_of_not _ _ _ (hInv.completed_sig B hB)
  · intro sb hmem
    rcases hInv.signed_db sb hmem with ⟨h1, h2⟩
    constructor
    · exact Store.completed_complete _ _ _ h1
    · rw [Store.batchKeys_complete]; exact h2
  · intro sid pp hmem
    rcases hInv.pre_event_db sid pp hmem with ⟨h1, h2⟩
    rw [Store.has_attempt_complete]
    exact ⟨h1, h2⟩
  · exact hInv.trace_shape
  · intro B A hA h
    by_cases hB : B = block
    · subst hB
      rw [Map.get_remove_self] at hA
      cases hA
    · rw [Map.get_remove_ne _ _ _ (fun he => hB he.symm)] at hA
      rw [Map.contains_remove_ne _ _ _ (fun he => hB he.symm)] at h
      exact hInv.pre_trace B A hA h
  · intro B A hA h
    by_cases hB : B = block
    · subst hB
      rw [Map.get_remove_self] at hA
      cases hA
    · rw [Map.get_remove_ne _ _ _ (fun he => hB he.symm)] at hA
      rw [Map.contains_remove_ne _ _ _ (fun he => hB he.symm)] at h
      exact hInv.sig_trace B A hA h
  · exact hInv.signed_once

end SubstrateSigner

namespace SubstrateSigner

theorem contains_attempt_of_get (s : SubstrateSigner) (B A : Nat)
    (h : Map.get s.attempt B = some A) : Map.contains s.attempt B = true := by
  rw [Map.contains_eq_true_iff]
  exact ⟨A, h⟩

theorem not_completed_of_attempt (s : SubstrateSigner) (hInv : SignerInv s)
    (B A : Nat) (h : Map.get s.attempt B = some A) : s.db.completed B = false := by
  by_cases hc : s.db.completed B = true
  · cases (contains_attempt_of_get s B A h).symm.trans (hInv.completed_attempt B hc)
  · rw [Bool.not_eq_true] at hc
    exact hc

theorem inv_preStepped (s : SubstrateSigner) (id : SignId)
    (m : AlgorithmSignMachine) (parsed : List (Nat × Nat)) (b : Batch)
    (hInv : SignerInv s)
    (hv : Map.get s.attempt id.id = some id.attempt)
    (hm : Map.get s.preprocessing id.id = some m)
    (hb : Map.get s.signable id.id = some b) :
    SignerInv (preStepped s id m parsed b) := by
  have hprec : Map.contains s.preprocessing id.id = true := by
    rw [Map.contains_eq_true_iff]; exact ⟨m, hm⟩
  have hsigc : Map.contains s.signable id.id = true := by
    rw [Map.contains_eq_true_iff]; exact ⟨b, hb⟩
  have hattc : Map.contains s.attempt id.id = true := contains_attempt_of_get s _ _ hv
  have hncomp : s.db.completed id.id = false := not_completed_of_attempt s hInv _ _ hv
  have htrace : sidTrace id.id id.attempt s.events = [RoundTag.pre] :=
    hInv.pre_trace id.id id.attempt hv hprec
  unfold preStepped
  refine ⟨?_, ?_, ?_, ?_, ?_, ?_, ?_, ?_, ?_, ?_, ?_, ?_, ?_, ?_, ?_, ?_⟩ <;> dsimp only
  · intro B h
    exact hInv.pre_signable B (Map.contains_of_contains_remove _ _ _ h)
  · intro B h
    exact hInv.pre_attempt B (Map.contains_of_contains_remove _ _ _ h)
  · intro B h
    rcases Map.contains_insert_elim _ _ _ _ h with hB | hB
    · subst hB; exact hsigc
    · exact hInv.sig_signable B hB
  · intro B h
    rcases Map.contains_insert_elim _ _ _ _ h with hB | hB
    · subst hB; exact hattc
    · exact hInv.sig_attempt B hB
  · intro B h
    have hB : B ≠ id.id := by
      intro he
      rw [he] at h
      cases h.symm.trans (Map.contains_remove_self s.preprocessing id.id)
    rw [Map.contains_insert_ne _ _ _ _ (fun he => hB he.symm)]
    exact hInv.mutex B (Map.contains_of_contains_remove _ _ _ h)
  · exact hInv.signable_block
  · exact hInv.completed_signable
  · exact hInv.completed_attempt
  · intro B h
    exact Map.contains_remove_of_not _ _ _ (hInv.completed_pre B h)
  · intro B h
    have hB : B ≠ id.id := by
      intro he
      rw [he, hncomp] at h
      cases h
    rw [Map.contains_insert_ne _ _ _ _ (fun he => hB he.symm)]
    exact hInv.completed_sig B h
  · intro sb hmem
    rw [List.mem_append] at hmem
    rcases hmem with hmem | hmem
    · exact hInv.signed_db sb hmem
    · simp [evSigned, evShr] at hmem
  · intro sid pp hmem
    rw [List.mem_append] at hmem
    rcases hmem with hmem | hmem
    · exact hInv.pre_event_db sid pp hmem
    · simp [evPre, evShr] at hmem
  · intro B A
    rw [sidTrace_append]
    by_cases hBA : B = id.id ∧ A = id.attempt
    · rcases hBA with ⟨hB, hA⟩
      rw [hB, hA, htrace]
      right; right
      rw [sidTrace_single_shr_self id.id id.attempt _ _ rfl rfl]
      rfl
    · rw [sidTrace_single_shr_other B A _ _
        (by simpa using fun h1 h2 => hBA ⟨h1.symm, h2.symm⟩)]
      rw [List.append_nil]
      exact hInv.trace_shape B A
  · intro B A hA h
    by_cases hB : B = id.id
    · subst hB
      cases h.symm.trans (Map.contains_remove_self s.preprocessing id.id)
    · rw [Map.contains_remove_ne _ _ _ (fun he => hB he.symm)] at h
      rw [sidTrace_append]
      rw [sidTrace_single_shr_other B A _ _ (by simp; intro h1; exact absurd h1.symm hB)]
      rw [List.append_nil]
      exact hInv.pre_trace B A hA h
  · intro B A hA h
    rw [sidTrace_append]
    by_cases hB : B = id.id
    · subst hB
      rw [hv] at hA
      cases hA
      rw [htrace]
      rw [sidTrace_single_shr_self id.id id.attempt _ _ rfl rfl]
      rfl
    · rcases Map.contains_insert_elim _ _ _ _ h with hB2 | hB2
      · exact absurd hB2 hB
      · rw [sidTrace_single_shr_other B A _ _ (by simp; intro h1; exact absurd h1.symm hB)]
        rw [List.append_nil]
        exact hInv.sig_trace B A hA hB2
  · intro B
    rw [signedCount_append]
    rw [show signedCount B [evShr id (machineSign m parsed (Batch.encode b)).2] = 0 from rfl]
    simpa using hInv.signed_once B

theorem inv_sharesCompleted (s : SubstrateSigner) (id : SignId)
    (m : AlgorithmSignatureMachine) (parsed : List (Nat × Nat)) (b : Batch)
    (hInv : SignerInv s)
    (hv : Map.get s.attempt id.id = some id.attempt)
    (hm : Map.get s.signing id.id = some m)
    (hb : Map.get s.signable id.id = some b)
    (hpre : Map.contains s.preprocessing id.id = false) :
    SignerInv (sharesCompleted s id m parsed b) := by
  have hsgc : Map.contains s.signing id.id = true := by
    rw [Map.contains_eq_true_iff]; exact ⟨m, hm⟩
  have hattc : Map.contains s.attempt id.id = true := contains_attempt_of_get s _ _ hv
  have hncomp : s.db.completed id.id = false := not_completed_of_attempt s hInv _ _ hv
  have hblock : b.block = id.id := hInv.signable_block id.id b hb
  unfold sharesCompleted
  refine ⟨?_, ?_, ?_, ?_, ?_, ?_, ?_, ?_, ?_, ?_, ?_, ?_, ?_, ?_, ?_, ?_⟩ <;> dsimp only
  · intro B h
    have hB : B ≠ id.id := by
      intro he
      rw [he, hpre] at h
      cases h
    rw [Map.contains_remove_ne _ _ _ (fun he => hB he.symm)]
    exact hInv.pre_signable B h
  · intro B h
    have hB : B ≠ id.id := by
      intro he
      rw [he, hpre] at h
      cases h
    rw [Map.contains_remove_ne _ _ _ (fun he => hB he.symm)]
    exact hInv.pre_attempt B h
  · intro B h
    have hB : B ≠ id.id := by
      intro he
      rw [he] at h
      cases h.symm.trans (Map.contains_remove_self s.signing id.id)
    rw [Map.contains_remove_ne _ _ _ (fun he => hB he.symm)]
    exact hInv.sig_signable B (Map.contains_of_contains_remove _ _ _ h)
  · intro B h
    have hB : B ≠ id.id := by
      intro he
      rw [he] at h
      cases h.symm.trans (Map.contains_remove_self s.signing id.id)
    rw [Map.contains_remove_ne _ _ _ (fun he => hB he.symm)]
    exact hInv.sig_attempt B (Map.contains_of_contains_remove _ _ _ h)
  · intro B h
    exact Map.contains_remove_of_not _ _ _ (hInv.mutex B h)
  · intro B b2 h
    by_cases hB : id.id = B
    · subst hB
      rw [Map.get_remove_self] at h
      cases h
    · rw [Map.get_remove_ne _ _ _ hB] at h
      exact hInv.signable_block B b2 h
  · intro B h
    rcases Store.completed_complete_elim _ _ _ h with hB | hB
    · rw [hB]; exact Map.contains_remove_self _ _
    · rw [Store.completed_save_batch] at hB
      exact Map.contains_remove_of_not _ _ _ (hInv.completed_signable B hB)
  · intro B h
    rcases Store.completed_complete_elim _ _ _ h with hB | hB
    · rw [hB]; exact Map.contains_remove_self _ _
    · rw [Store.completed_save_batch] at hB
      exact Map.contains_remove_of_not _ _ _ (hInv.completed_attempt B hB)
  · intro B h
    rcases Store.completed_complete_elim _ _ _ h with hB | hB
    · rw [hB]; exact hpre
    · rw [Store.completed_save_batch] at hB
      exact hInv.completed_pre B hB
  · intro B h
    rcases Store.completed_complete_elim _ _ _ h with hB | hB
    · rw [hB]; exact Map.contains_remove_self _ _
    · rw [Store.completed_save_batch] at hB
      exact Map.contains_remove_of_not _ _ _ (hInv.completed_sig B hB)
  · intro sb hmem
    rw [List.mem_append] at hmem
    rcases hmem with hmem | hmem
    · rcases hInv.signed_db sb hmem with ⟨h1, h2⟩
      constructor
      · exact Store.completed_complete _ _ _ (by rw [Store.completed_save_batch]; exact h1)
      · rw [Store.batchKeys_complete]
        unfold Store.save_batch
        dsimp only
        exact Map.isSome_get_insert _ _ _ _ h2
    · simp only [List.mem_singleton, evSigned, SubstrateSignerEvent.signedBatch.injEq] at hmem
      rw [hmem]
      constructor
      · dsimp only
        rw [hblock]
        exact Store.completed_complete_self _ _
      · rw [Store.batchKeys_complete]
        unfold Store.save_batch
        dsimp only
        rw [Map.get_insert_self]
        rfl
  · intro sid pp hmem
    rw [List.mem_append] at hmem
    rcases hmem with hmem | hmem
    · rcases hInv.pre_event_db sid pp hmem with ⟨h1, h2⟩
      rw [Store.has_attempt_complete, Store.has_attempt_save_batch]
      exact ⟨h1, h2⟩
    · simp [evPre, evSigned] at hmem
  · intro B A
    rw [sidTrace_append, sidTrace_single_signed, List.append_nil]
    exact hInv.trace_shape B A
  · intro B A hA h
    by_cases hB : B = id.id
    · subst hB
      rw [Map.get_remove_self] at hA
      cases hA
    · rw [Map.get_remove_ne _ _ _ (fun he => hB he.symm)] at hA
      rw [sidTrace_append, sidTrace_single_signed, List.append_nil]
      exact hInv.pre_trace B A hA h
  · intro B A hA h
    by_cases hB : B = id.id
    · subst hB
      rw [Map.get_remove_self] at hA
      cases hA
    · rw [Map.get_remove_ne _ _ _ (fun he => hB he.symm)] at hA
      rw [Map.contains_remove_ne _ _ _ (fun he => hB he.symm)] at h
      rw [sidTrace_append, sidTrace_single_signed, List.append_nil]
      exact hInv.sig_trace B A hA h
  · intro B
    rw [signedCount_append]
    by_cases hB : B = b.block
    · subst hB
      have hzero : signedCount b.block s.events = 0 := by
        by_cases hz : 0 < signedCount b.block s.events
        · rw [signedCount_pos_iff] at hz
          rcases hz with ⟨sb2, hmem, hbl⟩
          have := (hInv.signed_db sb2 hmem).1
          rw [hbl, hblock] at this
          rw [this] at hncomp
          cases hncomp
        · omega
      rw [hzero]
      rw [show signedCount b.block
        [evSigned { batch := b, signature := machineComplete m parsed }] = 1 by
          simp [signedCount, evSigned, List.filter]]
    · rw [show signedCount B
        [evSigned { batch := b, signature := machineComplete m parsed }] = 0 by
          simp [signedCount, evSigned, List.filter, Ne.symm hB]]
      simpa using hInv.signed_once B

end SubstrateSigner

namespace SubstrateSigner

theorem inv_handle (s : SubstrateSigner) (msg : CoordinatorMessage) (rand : Nat)
    (s2 : SubstrateSigner) (hInv : SignerInv s)
    (h : handle s msg rand = Except.ok s2) : SignerInv s2 := by
  cases msg with
  | batchPreprocesses id pp =>
    by_cases hv : verify_id s id = true
    · rcases hm : Map.get s.preprocessing id.id with _ | m
      · rw [handle_pre_eq_of_no_machine s id pp rand hv hm] at h
        injection h with h2
        subst h2
        exact hInv
      · rcases hp : collectParsed pp with _ | parsed
        · rw [handle_pre_eq_of_malformed s id pp rand hv m hm hp] at h
          simp at h
        · rcases hb : Map.get s.signable id.id with _ | b
          · rw [handle_pre_eq_of_no_signable s id pp rand hv m hm parsed hp hb] at h
            simp at h
          · rw [handle_pre_eq_stepped s id pp rand hv m hm parsed hp b hb] at h
            injection h with h2
            subst h2
            exact inv_preStepped s id m parsed b hInv
              ((verify_id_eq_true_iff s id).1 hv) hm hb
    · rw [Bool.not_eq_true] at hv
      rw [handle_pre_eq_of_unverified s id pp rand hv] at h
      injection h with h2
      subst h2
      exact hInv
  | batchShares id sh =>
    by_cases hv : verify_id s id = true
    · rcases hm : Map.get s.signing id.id with _ | m
      · by_cases hpre : Map.contains s.preprocessing id.id = true
        · rw [handle_shares_eq_of_breach s id sh rand hv hm hpre] at h
          simp at h
        · rw [Bool.not_eq_true] at hpre
          rw [handle_shares_eq_of_no_machine s id sh rand hv hm hpre] at h
          injection h with h2
          subst h2
          exact hInv
      · rcases hp : collectParsed sh with _ | parsed
        · rw [handle_shares_eq_of_malformed s id sh rand hv m hm hp] at h
          simp at h
        · rcases hb : Map.get s.signable id.id with _ | b
          · rw [handle_shares_eq_of_no_signable s id sh rand hv m hm parsed hp hb] at h
            simp at h
          · by_cases hpre : Map.contains s.preprocessing id.id = true
            · rw [handle_shares_eq_of_assert_pre s id sh rand hv m hm parsed hp b hb hpre] at h
              simp at h
            · rw [Bool.not_eq_true] at hpre
              rw [handle_shares_eq_completed s id sh rand hv m hm parsed hp b hb hpre] at h
              injection h with h2
              subst h2
              exact inv_sharesCompleted s id m parsed b hInv
                ((verify_id_eq_true_iff s id).1 hv) hm hb hpre
    · rw [Bool.not_eq_true] at hv
      rw [handle_shares_eq_of_unverified s id sh rand hv] at h
      injection h with h2
      subst h2
      exact hInv
  | batchReattempt id =>
    rw [handle_reattempt_eq] at h
    injection h with h2
    subst h2
    exact inv_start_attempt _ _ _ _ hInv

end SubstrateSigner

theorem inv_step (s : SubstrateSigner) (op : Op) (s2 : SubstrateSigner)
    (hInv : SignerInv s) (h : step s op = Except.ok s2) : SignerInv s2 := by
  cases op with
  | opSign b r =>
    simp only [step] at h
    injection h with h2
    subst h2
    exact SubstrateSigner.inv_sign s b r hInv
  | opHandle m r =>
    exact SubstrateSigner.inv_handle s m r s2 hInv h
  | opBatchSigned b =>
    simp only [step] at h
    injection h with h2
    subst h2
    exact SubstrateSigner.inv_batch_signed s b hInv

theorem inv_runOps (ops : List Op) (s s2 : SubstrateSigner)
    (hInv : SignerInv s) (h : runOps s ops = Except.ok s2) : SignerInv s2 := by
  induction ops generalizing s with
  | nil =>
    simp only [runOps] at h
    injection h with h2
    subst h2
    exact hInv
  | cons op rest ih =>
    simp only [runOps] at h
    rcases hs : step s op with e | s1
    · rw [hs] at h; simp at h
    · rw [hs] at h
      exact ih s1 (inv_step s op s1 hInv hs) h

theorem reachable_inv (s : SubstrateSigner) (h : Reachable s) : SignerInv s := by
  rcases h with ⟨db, keys, ops, hrun⟩
  exact inv_runOps ops _ s (inv_new db keys) hrun

/-! ## Preprocess emission accounting (toward nonce safety) -/

theorem preprocessCount_single_pre_other (B A : Nat) (sid : SignId) (pp : Nat)
    (h : ¬(sid.id = B ∧ sid.attempt = A)) :
    preprocessCount B A [evPre sid pp] = 0 := by
  simp [preprocessCount, evPre, List.filter, h]

namespace SubstrateSigner

theorem start_attempt_pre_facts (s : SubstrateSigner) (id a rand B A : Nat) :
    (start_attempt s id a rand).keys = s.keys
    ∧ (∀ sid, s.db.has_attempt sid = true →
        (start_attempt s id a rand).db.has_attempt sid = true)
    ∧ preprocessCount B A s.events ≤ preprocessCount B A (start_attempt s id a rand).events
    ∧ preprocessCount B A (start_attempt s id a rand).events ≤ preprocessCount B A s.events + 1
    ∧ (s.db.has_attempt { key := s.keys, id := B, attempt := A } = true →
        preprocessCount B A (start_attempt s id a rand).events = preprocessCount B A s.events)
    ∧ (preprocessCount B A s.events < preprocessCount B A (start_attempt s id a rand).events →
        (start_attempt s id a rand).db.has_attempt
          { key := s.keys, id := B, attempt := A } = true) := by
  rcases start_attempt_cases s id a rand with h | ⟨h1, h2, h3, h4, h⟩ | ⟨h1, h2, h3, h4, h⟩ <;>
    rw [h]
  · exact ⟨rfl, fun sid hs => hs, le_refl _, Nat.le_succ _, fun _ => rfl,
      fun hlt => absurd hlt (lt_irrefl _)⟩
  · exact ⟨rfl, fun sid hs => hs, le_refl _, Nat.le_succ _, fun _ => rfl,
      fun hlt => absurd hlt (lt_irrefl _)⟩
  · unfold attemptStarted
    refine ⟨rfl, ?_, ?_, ?_, ?_, ?_⟩ <;> dsimp only
    · intro sid hs
      exact Store.has_attempt_attempt _ _ _ hs
    · rw [preprocessCount_append]
      omega
    · rw [preprocessCount_append]
      have := preprocessCount_single_pre B A { key := s.keys, id := id, attempt := a }
        (machinePreprocess rand).2
      omega
    · intro hha
      by_cases hBA : id = B ∧ a = A
      · rcases hBA with ⟨hB, hA⟩
        rw [hB, hA] at h4
        rw [h4] at hha
        cases hha
      · rw [preprocessCount_append]
        rw [preprocessCount_single_pre_other B A _ _
          (by simpa using fun he1 he2 => hBA ⟨he1, he2⟩)]
        omega
    · intro hlt
      by_cases hBA : id = B ∧ a = A
      · rcases hBA with ⟨hB, hA⟩
        rw [hB, hA]
        exact Store.has_attempt_attempt_self _ _
      · rw [preprocessCount_append,
          preprocessCount_single_pre_other B A _ _
            (by simpa using fun he1 he2 => hBA ⟨he1, he2⟩)] at hlt
        omega

theorem sign_pre_facts (s : SubstrateSigner) (b : Batch) (rand B A : Nat) :
    (sign s b rand).keys = s.keys
    ∧ (∀ sid, s.db.has_attempt sid = true → (sign s b rand).db.has_attempt sid = true)
    ∧ preprocessCount B A s.events ≤ preprocessCount B A (sign s b rand).events
    ∧ preprocessCount B A (sign s b rand).events ≤ preprocessCount B A s.events + 1
    ∧ (s.db.has_attempt { key := s.keys, id := B, attempt := A } = true →
        preprocessCount B A (sign s b rand).events = preprocessCount B A s.events)
    ∧ (preprocessCount B A s.events < preprocessCount B A (sign s b rand).events →
        (sign s b rand).db.has_attempt { key := s.keys, id := B, attempt := A } = true) := by
  by_cases hc : s.db.completed b.block = true
  · rw [sign_eq_of_completed s b rand hc]
    exact ⟨rfl, fun sid hs => hs, le_refl _, Nat.le_succ _, fun _ => rfl,
      fun hlt => absurd hlt (lt_irrefl _)⟩
  · rw [Bool.not_eq_true] at hc
    rw [sign_eq_of_live s b rand hc]
    exact start_attempt_pre_facts
      { s with signable := Map.insert s.signable b.block b } b.block 0 rand B A

theorem handle_pre_facts (s : SubstrateSigner) (msg : CoordinatorMessage)
    (rand : Nat) (s2 : SubstrateSigner) (B A : Nat)
    (h : handle s msg rand = Except.ok s2) :
    s2.keys = s.keys
    ∧ (∀ sid, s.db.has_attempt sid = true → s2.db.has_attempt sid = true)
    ∧ preprocessCount B A s.events ≤ preprocessCount B A s2.events
    ∧ preprocessCount B A s2.events ≤ preprocessCount B A s.events + 1
    ∧ (s.db.has_attempt { key := s.keys, id := B, attempt := A } = true →
        preprocessCount B A s2.events = preprocessCount B A s.events)
    ∧ (preprocessCount B A s.events < preprocessCount B A s2.events →
        s2.db.has_attempt { key := s.keys, id := B, attempt := A } = true) := by
  cases msg with
  | batchPreprocesses id pp =>
    by_cases hv : verify_id s id = true
    · rcases hm : Map.get s.preprocessing id.id with _ | m
      · rw [handle_pre_eq_of_no_machine s id pp rand hv hm] at h
        injection h with h2
        subst h2
        exact ⟨rfl, fun sid hs => hs, le_refl _, Nat.le_succ _, fun _ => rfl,
          fun hlt => absurd hlt (lt_irrefl _)⟩
      · rcases hp : collectParsed pp with _ | parsed
        · rw [handle_pre_eq_of_malformed s id pp rand hv m hm hp] at h
          simp at h
        · rcases hb : Map.get s.signable id.id with _ | b
          · rw [handle_pre_eq_of_no_signable s id pp rand hv m hm parsed hp hb] at h
            simp at h
          · rw [handle_pre_eq_stepped s id pp rand hv m hm parsed hp b hb] at h
            injection h with h2
            subst h2
            unfold preStepped
            refine ⟨rfl, fun sid hs => hs, ?_, ?_, ?_, ?_⟩ <;> dsimp only <;>
              rw [preprocessCount_append, preprocessCount_single_shr]
            · omega
            · omega
            · intro _; omega
            · intro hlt; omega
    · rw [Bool.not_eq_true] at hv
      rw [handle_pre_eq_of_unverified s id pp rand hv] at h
      injection h with h2
      subst h2
      exact ⟨rfl, fun sid hs => hs, le_refl _, Nat.le_succ _, fun _ => rfl,
        fun hlt => absurd hlt (lt_irrefl _)⟩
  | batchShares id sh =>
    by_cases hv : verify_id s id = true
    · rcases hm : Map.get s.signing id.id with _ | m
      · by_cases hpre : Map.contains s.preprocessing id.id = true
        · rw [handle_shares_eq_of_breach s id sh rand hv hm hpre] at h
          simp at h
        · rw [Bool.not_eq_true] at hpre
          rw [handle_shares_eq_of_no_machine s id sh rand hv hm hpre] at h
          injection h with h2
          subst h2
          exact ⟨rfl, fun sid hs => hs, le_refl _, Nat.le_succ _, fun _ => rfl,
            fun hlt => absurd hlt (lt_irrefl _)⟩
      · rcases hp : collectParsed sh with _ | parsed
        · rw [handle_shares_eq_of_malformed s id sh rand hv m hm hp] at h
          simp at h
        · rcases hb : Map.get s.signable id.id with _ | b
          · rw [handle_shares_eq_of_no_signable s id sh rand hv m hm parsed hp hb] at h
            simp at h
          · by_cases hpre : Map.contains s.preprocessing id.id = true
            · rw [handle_shares_eq_of_assert_pre s id sh rand hv m hm parsed hp b hb hpre] at h
              simp at h
            · rw [Bool.not_eq_true] at hpre
              rw [handle_shares_eq_completed s id sh rand hv m hm parsed hp b hb hpre] at h
              injection h with h2
              subst h2
              unfold sharesCompleted
              refine ⟨rfl, ?_, ?_, ?_, ?_, ?_⟩ <;> dsimp only
              · intro sid hs
                rw [Store.has_attempt_complete, Store.has_attempt_save_batch]
                exact hs
              · rw [preprocessCount_append, preprocessCount_single_signed]
                omega
              · rw [preprocessCount_append, preprocessCount_single_signed]
                omega
              · intro _
                rw [preprocessCount_append, preprocessCount_single_signed]
                omega
              · intro hlt
                rw [preprocessCount_append, preprocessCount_single_signed] at hlt
                omega
    · rw [Bool.not_eq_true] at hv
      rw [handle_shares_eq_of_unverified s id sh rand hv] at h
      injection h with h2
      subst h2
      exact ⟨rfl, fun sid hs => hs, le_refl _, Nat.le_succ _, fun _ => rfl,
        fun hlt => absurd hlt (lt_irrefl _)⟩
  | batchReattempt id =>
    rw [handle_reattempt_eq] at h
    injection h with h2
    subst h2
    exact start_attempt_pre_facts s id.id id.attempt rand B A

end SubstrateSigner

theorem step_pre_facts (s : SubstrateSigner) (op : Op) (s2 : SubstrateSigner)
    (B A : Nat) (h : step s op = Except.ok s2) :
    s2.keys = s.keys
    ∧ (∀ sid, s.db.has_attempt sid = true → s2.db.has_attempt sid = true)
    ∧ preprocessCount B A s.events ≤ preprocessCount B A s2.events
    ∧ preprocessCount B A s2.events ≤ preprocessCount B A s.events + 1
    ∧ (s.db.has_attempt { key := s.keys, id := B, attempt := A } = true →
        preprocessCount B A s2.events = preprocessCount B A s.events)
    ∧ (preprocessCount B A s.events < preprocessCount B A s2.events →
        s2.db.has_attempt { key := s.keys, id := B, attempt := A } = true) := by
  cases op with
  | opSign b r =>
    simp only [step] at h
    injection h with h2
    subst h2
    exact SubstrateSigner.sign_pre_facts s b r B A
  | opHandle m r =>
    exact SubstrateSigner.handle_pre_facts s m r s2 B A h
  | opBatchSigned b =>
    simp only [step] at h
    injection h with h2
    subst h2
    unfold SubstrateSigner.batch_signed
    refine ⟨rfl, ?_, le_refl _, Nat.le_succ _, fun _ => rfl,
      fun hlt => absurd hlt (lt_irrefl _)⟩
    intro sid hs
    dsimp only
    rw [Store.has_attempt_complete]
    exact hs

theorem runLifetime_pre_facts (ops : List Op) (s : SubstrateSigner) (B A : Nat) :
    (runLifetime s ops).keys = s.keys
    ∧ (∀ sid, s.db.has_attempt sid = true →
        (runLifetime s ops).db.has_attempt sid = true)
    ∧ (s.db.has_attempt { key := s.keys, id := B, attempt := A } = true →
        preprocessCount B A (runLifetime s ops).events = preprocessCount B A s.events)
    ∧ preprocessCount B A (runLifetime s ops).events ≤ preprocessCount B A s.events + 1
    ∧ (preprocessCount B A s.events < preprocessCount B A (runLifetime s ops).events →
        (runLifetime s ops).db.has_attempt { key := s.keys, id := B, attempt := A } = true) := by
  induction ops generalizing s with
  | nil =>
    exact ⟨rfl, fun sid hs => hs, fun _ => rfl, Nat.le_succ _,
      fun hlt => absurd hlt (lt_irrefl _)⟩
  | cons op rest ih =>
    rcases hs : step s op with e | s1
    · have hrl : runLifetime s (op :: rest) = s := by
        simp only [runLifetime]
        rw [hs]
      rw [hrl]
      exact ⟨rfl, fun sid hs2 => hs2, fun _ => rfl, Nat.le_succ _,
        fun hlt => absurd hlt (lt_irrefl _)⟩
    · have hrl : runLifetime s (op :: rest) = runLifetime s1 rest := by
        simp only [runLifetime]
        rw [hs]
      rw [hrl]
      rcases step_pre_facts s op s1 B A hs with ⟨hk, hmono, hle, hle1, hguard, hrec⟩
      rcases ih s1 with ⟨ihk, ihmono, ihguard, ihle1, ihrec⟩
      rw [hk] at ihk ihguard ihrec
      refine ⟨ihk, fun sid hs2 => ihmono sid (hmono sid hs2), ?_, ?_, ?_⟩
      · intro hha
        rw [ihguard (hmono _ hha), hguard hha]
      · by_cases hha : s.db.has_attempt { key := s.keys, id := B, attempt := A } = true
        · rw [ihguard (hmono _ hha), hguard hha]
          omega
        · by_cases hinc : preprocessCount B A s.events < preprocessCount B A s1.events
          · rw [ihguard (hrec hinc)]
            omega
          · have heq : preprocessCount B A s1.events = preprocessCount B A s.events := by omega
            rw [heq] at ihle1
            exact ihle1
      · intro hlt
        by_cases hinc : preprocessCount B A s.events < preprocessCount B A s1.events
        · exact ihmono _ (hrec hinc)
        · have heq : preprocessCount B A s1.events = preprocessCount B A s.events := by omega
          rw [← heq] at hlt
          exact ihrec hlt

theorem runCrashes_pre_bound (keys B A : Nat) (ls : List (List Op)) (db : Store) :
    (db.has_attempt { key := keys, id := B, attempt := A } = true →
      preprocessCount B A (runCrashes keys db ls) = 0)
    ∧ preprocessCount B A (runCrashes keys db ls) ≤ 1 := by
  induction ls generalizing db with
  | nil => exact ⟨fun _ => rfl, by simp [runCrashes, preprocessCount]⟩
  | cons ops rest ih =>
    have hrc : runCrashes keys db (ops :: rest) =
        (runLifetime (SubstrateSigner.new db keys) ops).events ++
          runCrashes keys (runLifetime (SubstrateSigner.new db keys) ops).db rest := rfl
    rw [hrc]
    rcases runLifetime_pre_facts ops (SubstrateSigner.new db keys) B A with
      ⟨hk, hmono, hguard, hle1, hrec⟩
    have hz : preprocessCount B A (SubstrateSigner.new db keys).events = 0 := rfl
    constructor
    · intro hha
      rw [preprocessCount_append]
      rw [hguard hha, hz]
      rw [(ih (runLifetime (SubstrateSigner.new db keys) ops).db).1 (hmono _ hha)]
    · rw [preprocessCount_append]
      by_cases hha : db.has_attempt { key := keys, id := B, attempt := A } = true
      · rw [hguard hha, hz]
        rw [(ih (runLifetime (SubstrateSigner.new db keys) ops).db).1 (hmono _ hha)]
        omega
      · by_cases hinc : 0 < preprocessCount B A
          (runLifetime (SubstrateSigner.new db keys) ops).events
        · have h1 := hrec (by rw [hz]; exact hinc)
          rw [(ih (runLifetime (SubstrateSigner.new db keys) ops).db).1 h1]
          rw [hz] at hle1
          omega
        · have h0 : preprocessCount B A
            (runLifetime (SubstrateSigner.new db keys) ops).events = 0 := by omega
          rw [h0]
          have := (ih (runLifetime (SubstrateSigner.new db keys) ops).db).2
          omega

/-! ## Further step-level facts -/

/-- The batch id a coordinator message addresses. -/
def msgBatchId : CoordinatorMessage → Nat
  | CoordinatorMessage.batchPreprocesses id _ => id.id
  | CoordinatorMessage.batchShares id _ => id.id
  | CoordinatorMessage.batchReattempt id => id.id

namespace SubstrateSigner

theorem start_attempt_events_of_attempted (s : SubstrateSigner) (id a rand : Nat)
    (h : s.db.has_attempt { key := s.keys, id := id, attempt := a } = true) :
    (start_attempt s id a rand).events = s.events := by
  rcases start_attempt_cases s id a rand with h2 | ⟨_, _, _, _, h2⟩ | ⟨_, _, _, h4, h2⟩
  · rw [h2]
  · rw [h2]; rfl
  · rw [h4] at h; cases h

theorem start_attempt_completed_eq (s : SubstrateSigner) (id a rand x : Nat) :
    (start_attempt s id a rand).db.completed x = s.db.completed x := by
  rcases start_attempt_cases s id a rand with h2 | ⟨_, _, _, _, h2⟩ | ⟨_, _, _, _, h2⟩ <;>
    rw [h2]
  · rfl
  · unfold attemptStarted
    dsimp only
    rw [Store.completed_attempt]

theorem start_attempt_signable_eq (s : SubstrateSigner) (id a rand : Nat) :
    (start_attempt s id a rand).signable = s.signable := by
  rcases start_attempt_cases s id a rand with h2 | ⟨_, _, _, _, h2⟩ | ⟨_, _, _, _, h2⟩ <;>
    rw [h2] <;> rfl

theorem start_attempt_keys_eq (s : SubstrateSigner) (id a rand : Nat) :
    (start_attempt s id a rand).keys = s.keys := by
  rcases start_attempt_cases s id a rand with h2 | ⟨_, _, _, _, h2⟩ | ⟨_, _, _, _, h2⟩ <;>
    rw [h2] <;> rfl

theorem start_attempt_attempt_after (s : SubstrateSigner) (id a rand : Nat)
    (hc : s.db.completed id = false)
    (hs : Map.contains s.signable id = true) :
    ∃ c, Map.get (start_attempt s id a rand).attempt id = some c := by
  by_cases hg : attemptGuard s id a = true
  · rw [start_attempt_eq_of_guard s id a rand hc hg]
    unfold attemptGuard at hg
    rcases hget : Map.get s.attempt id with _ | c
    · rw [hget] at hg; cases hg
    · exact ⟨c, rfl⟩
  · rw [Bool.not_eq_true] at hg
    by_cases h4 : s.db.has_attempt { key := s.keys, id := id, attempt := a } = true
    · rw [start_attempt_eq_aborted s id a rand hc hg hs h4]
      exact ⟨a, Map.get_insert_self _ _ _⟩
    · rw [Bool.not_eq_true] at h4
      rw [start_attempt_eq_started s id a rand hc hg hs h4]
      exact ⟨a, Map.get_insert_self _ _ _⟩

end SubstrateSigner

/-- Every successful step leaves the queue unchanged or appends exactly one
event, and each event kind is pinned to the operation that produced it. -/
theorem step_events_shapes (s : SubstrateSigner) (op : Op) (s2 : SubstrateSigner)
    (h : step s op = Except.ok s2) :
    s2.events = s.events
    ∨ (∃ id a pp, s2.events = s.events ++ [evPre { key := s.keys, id := id, attempt := a } pp]
        ∧ ((∃ b r, op = Op.opSign b r ∧ b.block = id ∧ a = 0)
           ∨ (∃ sid r, op = Op.opHandle (CoordinatorMessage.batchReattempt sid) r
               ∧ sid.id = id ∧ sid.attempt = a))
        ∧ s.db.completed id = false)
    ∨ (∃ sid pps r sh, op = Op.opHandle (CoordinatorMessage.batchPreprocesses sid pps) r
        ∧ s2.events = s.events ++ [evShr sid sh]
        ∧ Map.get s.attempt sid.id = some sid.attempt)
    ∨ (∃ sid shs r b m parsed, op = Op.opHandle (CoordinatorMessage.batchShares sid shs) r
        ∧ s2.events = s.events ++
            [evSigned { batch := b, signature := machineComplete m parsed }]
        ∧ Map.get s.signable sid.id = some b
        ∧ Map.get s.attempt sid.id = some sid.attempt) := by
  cases op with
  | opSign b r =>
    simp only [step] at h
    injection h with h2
    subst h2
    by_cases hc : s.db.completed b.block = true
    · rw [SubstrateSigner.sign_eq_of_completed s b r hc]
      exact Or.inl rfl
    · rw [Bool.not_eq_true] at hc
      rw [SubstrateSigner.sign_eq_of_live s b r hc]
      rcases SubstrateSigner.start_attempt_cases
        { s with signable := Map.insert s.signable b.block b } b.block 0 r with
        h2 | ⟨_, _, _, _, h2⟩ | ⟨h1, _, _, _, h2⟩ <;> rw [h2]
      · exact Or.inl rfl
      · exact Or.inl rfl
      · right; left
        refine ⟨b.block, 0, (machinePreprocess r).2, rfl, Or.inl ⟨b, r, rfl, rfl, rfl⟩, hc⟩
  | opHandle msg r =>
    cases msg with
    | batchPreprocesses id pp =>
      by_cases hv : SubstrateSigner.verify_id s id = true
      · rcases hm : Map.get s.preprocessing id.id with _ | m
        · rw [show step s (Op.opHandle (CoordinatorMessage.batchPreprocesses id pp) r) =
            SubstrateSigner.handle s (CoordinatorMessage.batchPreprocesses id pp) r from rfl,
            SubstrateSigner.handle_pre_eq_of_no_machine s id pp r hv hm] at h
          injection h with h2
          subst h2
          exact Or.inl rfl
        · rcases hp : collectParsed pp with _ | parsed
          · rw [show step s (Op.opHandle (CoordinatorMessage.batchPreprocesses id pp) r) =
              SubstrateSigner.handle s (CoordinatorMessage.batchPreprocesses id pp) r from rfl,
              SubstrateSigner.handle_pre_eq_of_malformed s id pp r hv m hm hp] at h
            simp at h
          · rcases hb : Map.get s.signable id.id with _ | b
            · rw [show step s (Op.opHandle (CoordinatorMessage.batchPreprocesses id pp) r) =
                SubstrateSigner.handle s (CoordinatorMessage.batchPreprocesses id pp) r from rfl,
                SubstrateSigner.handle_pre_eq_of_no_signable s id pp r hv m hm parsed hp hb] at h
              simp at h
            · rw [show step s (Op.opHandle (CoordinatorMessage.batchPreprocesses id pp) r) =
                SubstrateSigner.handle s (CoordinatorMessage.batchPreprocesses id pp) r from rfl,
                SubstrateSigner.handle_pre_eq_stepped s id pp r hv m hm parsed hp b hb] at h
              injection h with h2
              subst h2
              right; right; left
              exact ⟨id, pp, r, (machineSign m parsed (Batch.encode b)).2, rfl, rfl,
                (SubstrateSigner.verify_id_eq_true_iff s id).1 hv⟩
      · rw [Bool.not_eq_true] at hv
        rw [show step s (Op.opHandle (CoordinatorMessage.batchPreprocesses id pp) r) =
          SubstrateSigner.handle s (CoordinatorMessage.batchPreprocesses id pp) r from rfl,
          SubstrateSigner.handle_pre_eq_of_unverified s id pp r hv] at h
        injection h with h2
        subst h2
        exact Or.inl rfl
    | batchShares id sh =>
      by_cases hv : SubstrateSigner.verify_id s id = true
      · rcases hm : Map.get s.signing id.id with _ | m
        · by_cases hpre : Map.contains s.preprocessing id.id = true
          · rw [show step s (Op.opHandle (CoordinatorMessage.batchShares id sh) r) =
              SubstrateSigner.handle s (CoordinatorMessage.batchShares id sh) r from rfl,
              SubstrateSigner.handle_shares_eq_of_breach s id sh r hv hm hpre] at h
            simp at h
          · rw [Bool.not_eq_true] at hpre
            rw [show step s (Op.opHandle (CoordinatorMessage.batchShares id sh) r) =
              SubstrateSigner.handle s (CoordinatorMessage.batchShares id sh) r from rfl,
              SubstrateSigner.handle_shares_eq_of_no_machine s id sh r hv hm hpre] at h
            injection h with h2
            subst h2
            exact Or.inl rfl
        · rcases hp : collectParsed sh with _ | parsed
          · rw [show step s (Op.opHandle (CoordinatorMessage.batchShares id sh) r) =
              SubstrateSigner.handle s (CoordinatorMessage.batchShares id sh) r from rfl,
              SubstrateSigner.handle_shares_eq_of_malformed s id sh r hv m hm hp] at h
            simp at h
          · rcases hb : Map.get s.signable id.id with _ | b
            · rw [show step s (Op.opHandle (CoordinatorMessage.batchShares id sh) r) =
                SubstrateSigner.handle s (CoordinatorMessage.batchShares id sh) r from rfl,
                SubstrateSigner.handle_shares_eq_of_no_signable s id sh r hv m hm parsed hp hb] at h
              simp at h
            · by_cases hpre : Map.contains s.preprocessing id.id = true
              · rw [show step s (Op.opHandle (CoordinatorMessage.batchShares id sh) r) =
                  SubstrateSigner.handle s (CoordinatorMessage.batchShares id sh) r from rfl,
                  SubstrateSigner.handle_shares_eq_of_assert_pre
                    s id sh r hv m hm parsed hp b hb hpre] at h
                simp at h
              · rw [Bool.not_eq_true] at hpre
                rw [show step s (Op.opHandle (CoordinatorMessage.batchShares id sh) r) =
                  SubstrateSigner.handle s (CoordinatorMessage.batchShares id sh) r from rfl,
                  SubstrateSigner.handle_shares_eq_completed
                    s id sh r hv m hm parsed hp b hb hpre] at h
                injection h with h2
                subst h2
                right; right; right
                exact ⟨id, sh, r, b, m, parsed, rfl, rfl, hb,
                  (SubstrateSigner.verify_id_eq_true_iff s id).1 hv⟩
      · rw [Bool.not_eq_true] at hv
        rw [show step s (Op.opHandle (CoordinatorMessage.batchShares id sh) r) =
          SubstrateSigner.handle s (CoordinatorMessage.batchShares id sh) r from rfl,
          SubstrateSigner.handle_shares_eq_of_unverified s id sh r hv] at h
        injection h with h2
        subst h2
        exact Or.inl rfl
    | batchReattempt id =>
      rw [show step s (Op.opHandle (CoordinatorMessage.batchReattempt id) r) =
        SubstrateSigner.handle s (CoordinatorMessage.batchReattempt id) r from rfl,
        SubstrateSigner.handle_reattempt_eq] at h
      injection h with h2
      subst h2
      rcases SubstrateSigner.start_attempt_cases s id.id id.attempt r with
        h2 | ⟨_, _, _, _, h2⟩ | ⟨h1, _, _, _, h2⟩ <;> rw [h2]
      · exact Or.inl rfl
      · exact Or.inl rfl
      · right; left
        exact ⟨id.id, id.attempt, (machinePreprocess r).2, rfl,
          Or.inr ⟨id, r, rfl, rfl, rfl⟩, h1⟩
  | opBatchSigned b =>
    simp only [step] at h
    injection h with h2
    subst h2
    exact Or.inl rfl

/-- A successful step never dies on the `signable` index, the `unwrap`, or
the three trailing asserts: the only Rust panics that remain reachable are
the two the source deliberately keeps (the malicious-peer `todo!` and the
shares-without-preprocess `panic!`). -/
theorem step_error_kinds (s : SubstrateSigner) (op : Op) (p : SignerFault)
    (hInv : SignerInv s) (h : step s op = Except.error p) :
    p = SignerFault.todoMalicious ∨ p = SignerFault.neverPreprocessedYetSigning := by
  cases op with
  | opSign b r => simp [step] at h
  | opBatchSigned b => simp [step] at h
  | opHandle msg r =>
    cases msg with
    | batchPreprocesses id pp =>
      by_cases hv : SubstrateSigner.verify_id s id = true
      · rcases hm : Map.get s.preprocessing id.id with _ | m
        · rw [show step s (Op.opHandle (CoordinatorMessage.batchPreprocesses id pp) r) =
            SubstrateSigner.handle s (CoordinatorMessage.batchPreprocesses id pp) r from rfl,
            SubstrateSigner.handle_pre_eq_of_no_machine s id pp r hv hm] at h
          simp at h
        · rcases hp : collectParsed pp with _ | parsed
          · left
            rw [show step s (Op.opHandle (CoordinatorMessage.batchPreprocesses id pp) r) =
              SubstrateSigner.handle s (CoordinatorMessage.batchPreprocesses id pp) r from rfl,
              SubstrateSigner.handle_pre_eq_of_malformed s id pp r hv m hm hp] at h
            injection h with h2
            rw [h2]
          · have hsig : Map.contains s.signable id.id = true :=
              hInv.pre_signable id.id (by rw [Map.contains_eq_true_iff]; exact ⟨m, hm⟩)
            rcases (Map.contains_eq_true_iff _ _).1 hsig with ⟨b, hb⟩
            rw [show step s (Op.opHandle (CoordinatorMessage.batchPreprocesses id pp) r) =
              SubstrateSigner.handle s (CoordinatorMessage.batchPreprocesses id pp) r from rfl,
              SubstrateSigner.handle_pre_eq_stepped s id pp r hv m hm parsed hp b hb] at h
            simp at h
      · rw [Bool.not_eq_true] at hv
        rw [show step s (Op.opHandle (CoordinatorMessage.batchPreprocesses id pp) r) =
          SubstrateSigner.handle s (CoordinatorMessage.batchPreprocesses id pp) r from rfl,
          SubstrateSigner.handle_pre_eq_of_unverified s id pp r hv] at h
        simp at h
    | batchShares id sh =>
      by_cases hv : SubstrateSigner.verify_id s id = true
      · rcases hm : Map.get s.signing id.id with _ | m
        · by_cases hpre : Map.contains s.preprocessing id.id = true
          · right
            rw [show step s (Op.opHandle (CoordinatorMessage.batchShares id sh) r) =
              SubstrateSigner.handle s (CoordinatorMessage.batchShares id sh) r from rfl,
              SubstrateSigner.handle_shares_eq_of_breach s id sh r hv hm hpre] at h
            injection h with h2
            rw [h2]
          · rw [Bool.not_eq_true] at hpre
            rw [show step s (Op.opHandle (CoordinatorMessage.batchShares id sh) r) =
              SubstrateSigner.handle s (CoordinatorMessage.batchShares id sh) r from rfl,
              SubstrateSigner.handle_shares_eq_of_no_machine s id sh r hv hm hpre] at h
            simp at h
        · have hsgc : Map.contains s.signing id.id = true := by
            rw [Map.contains_eq_true_iff]; exact ⟨m, hm⟩
          have hpre : Map.contains s.preprocessing id.id = false := by
            by_cases hq : Map.contains s.preprocessing id.id = true
            · cases hsgc.symm.trans (hInv.mutex id.id hq)
            · rw [Bool.not_eq_true] at hq; exact hq
          rcases hp : collectParsed sh with _ | parsed
          · left
            rw [show step s (Op.opHandle (CoordinatorMessage.batchShares id sh) r) =
              SubstrateSigner.handle s (CoordinatorMessage.batchShares id sh) r from rfl,
              SubstrateSigner.handle_shares_eq_of_malformed s id sh r hv m hm hp] at h
            injection h with h2
            rw [h2]
          · rcases (Map.contains_eq_true_iff _ _).1 (hInv.sig_signable id.id hsgc) with ⟨b, hb⟩
            rw [show step s (Op.opHandle (CoordinatorMessage.batchShares id sh) r) =
              SubstrateSigner.handle s (CoordinatorMessage.batchShares id sh) r from rfl,
              SubstrateSigner.handle_shares_eq_completed s id sh r hv m hm parsed hp b hb hpre] at h
            simp at h
      · rw [Bool.not_eq_true] at hv
        rw [show step s (Op.opHandle (CoordinatorMessage.batchShares id sh) r) =
          SubstrateSigner.handle s (CoordinatorMessage.batchShares id sh) r from rfl,
          SubstrateSigner.handle_shares_eq_of_unverified s id sh r hv] at h
        simp at h
    | batchReattempt id =>
      rw [show step s (Op.opHandle (CoordinatorMessage.batchReattempt id) r) =
        SubstrateSigner.handle s (CoordinatorMessage.batchReattempt id) r from rfl,
        SubstrateSigner.handle_reattempt_eq] at h
      simp at h

/-! ## Completion is absorbing -/

theorem eventsAbout_single_none (B : Nat) (e : SubstrateSignerEvent)
    (h : mentions B e = false) : eventsAbout B [e] = [] := by
  simp [eventsAbout, List.filter, h]

namespace SubstrateSigner

theorem handle_completed_noop (s : SubstrateSigner) (msg : CoordinatorMessage)
    (rand B : Nat) (hInv : SignerInv s) (hcomp : s.db.completed B = true)
    (hid : msgBatchId msg = B) : handle s msg rand = Except.ok s := by
  have hatt : Map.get s.attempt B = none := by
    rw [← Map.contains_eq_false_iff]
    exact hInv.completed_attempt B hcomp
  cases msg with
  | batchPreprocesses id pp =>
    simp only [msgBatchId] at hid
    have hv : verify_id s id = false := by
      unfold verify_id
      rw [hid, hatt]
    exact handle_pre_eq_of_unverified s id pp rand hv
  | batchShares id sh =>
    simp only [msgBatchId] at hid
    have hv : verify_id s id = false := by
      unfold verify_id
      rw [hid, hatt]
    exact handle_shares_eq_of_unverified s id sh rand hv
  | batchReattempt id =>
    simp only [msgBatchId] at hid
    rw [handle_reattempt_eq]
    rw [start_attempt_eq_of_completed s id.id id.attempt rand (by rw [hid]; exact hcomp)]

theorem batch_signed_completed_noop (s : SubstrateSigner) (B : Nat)
    (hInv : SignerInv s) (hcomp : s.db.completed B = true) :
    batch_signed s B = s := by
  unfold batch_signed
  dsimp only
  rw [Store.complete_eq_of_completed s.db B hcomp]
  rw [Map.remove_eq_of_get_none s.signable B
    ((Map.contains_eq_false_iff _ _).1 (hInv.completed_signable B hcomp))]
  rw [Map.remove_eq_of_get_none s.attempt B
    ((Map.contains_eq_false_iff _ _).1 (hInv.completed_attempt B hcomp))]
  rw [Map.remove_eq_of_get_none s.preprocessing B
    ((Map.contains_eq_false_iff _ _).1 (hInv.completed_pre B hcomp))]
  rw [Map.remove_eq_of_get_none s.signing B
    ((Map.contains_eq_false_iff _ _).1 (hInv.completed_sig B hcomp))]

end SubstrateSigner

theorem step_eventsAbout_completed (s : SubstrateSigner) (op : Op)
    (s2 : SubstrateSigner) (B : Nat) (hInv : SignerInv s)
    (hcomp : s.db.completed B = true) (h : step s op = Except.ok s2) :
    eventsAbout B s2.events = eventsAbout B s.events := by
  rcases step_events_shapes s op s2 h with he |
    ⟨id, a, pp, he, _, hc⟩ | ⟨sid, pps, r, sh, _, he, hatt⟩ |
    ⟨sid, shs, r, b, m, parsed, _, he, hb, hatt⟩
  · rw [he]
  · rw [he, eventsAbout_append]
    have hne : id ≠ B := by
      intro heq
      rw [heq, hcomp] at hc
      cases hc
    rw [eventsAbout_single_none B _ (by simp [mentions, evPre, hne])]
    rw [List.append_nil]
  · rw [he, eventsAbout_append]
    have hne : sid.id ≠ B := by
      intro heq
      have hc2 := hInv.completed_attempt B hcomp
      rw [heq] at hatt
      cases (SubstrateSigner.contains_attempt_of_get s B sid.attempt hatt).symm.trans hc2
    rw [eventsAbout_single_none B _ (by simp [mentions, evShr, hne])]
    rw [List.append_nil]
  · rw [he, eventsAbout_append]
    have hbl : b.block = sid.id := hInv.signable_block sid.id b hb
    have hne : sid.id ≠ B := by
      intro heq
      have hc2 := hInv.completed_attempt B hcomp
      rw [heq] at hatt
      cases (SubstrateSigner.contains_attempt_of_get s B sid.attempt hatt).symm.trans hc2
    rw [eventsAbout_single_none B _ (by simp [mentions, evSigned, hbl, hne])]
    rw [List.append_nil]

/-! ## Concrete fixtures (spec scenarios S1/S3 instantiated) -/

def batchEx : Batch := { block := 5, instructions := 9 }

def sidEx : SignId := { key := 7, id := 5, attempt := 0 }

def ppWireEx : List (Nat × Wire) := [(2, Wire.valid 11), (3, Wire.valid 12)]

def shWireEx : List (Nat × Wire) := [(2, Wire.valid 21), (3, Wire.valid 22)]

/-- The happy-path call sequence of scenario S1. -/
def opsHappy : List Op :=
  [Op.opSign batchEx 3,
   Op.opHandle (CoordinatorMessage.batchPreprocesses sidEx ppWireEx) 0,
   Op.opHandle (CoordinatorMessage.batchShares sidEx shWireEx) 0]

/-- The state after the full happy path: batch 5 signed and completed. -/
def sHappy : SubstrateSigner :=
  runLifetime (SubstrateSigner.new Store.emptyStore 7) opsHappy

/-- The state after only `sign`: attempt 0 of batch 5 preprocessed. -/
def sAtt : SubstrateSigner :=
  runLifetime (SubstrateSigner.new Store.emptyStore 7) [Op.opSign batchEx 3]

theorem reach_sHappy : Reachable sHappy :=
  ⟨Store.emptyStore, 7, opsHappy, rfl⟩

theorem reach_sAtt : Reachable sAtt :=
  ⟨Store.emptyStore, 7, [Op.opSign batchEx 3], rfl⟩

/-! ## The claims -/

/-- Claim C1 (nonce safety): across an arbitrary crash-restart sequence of
lifetimes, a `BatchPreprocess` message for a given batch id and attempt index
is emitted at most once; `start_attempt` emits nothing when the `Attempted`
sentinel is already durably set; and whenever a preprocess event is in the
queue of a reachable state, its `Attempted` sentinel is already committed. -/
theorem spec_C1_nonce_safety :
    (∀ (keys B A : Nat) (db : Store) (ls : List (List Op)),
      preprocessCount B A (runCrashes keys db ls) ≤ 1)
    ∧ (∀ (s : SubstrateSigner) (id a rand : Nat),
        s.db.has_attempt { key := s.keys, id := id, attempt := a } = true →
        (SubstrateSigner.start_attempt s id a rand).events = s.events)
    ∧ (∀ s : SubstrateSigner, Reachable s → ∀ (sid : SignId) (pp : Nat),
        evPre sid pp ∈ s.events → s.db.has_attempt sid = true) := by
  refine ⟨?_, ?_, ?_⟩
  · intro keys B A db ls
    exact (runCrashes_pre_bound keys B A ls db).2
  · exact SubstrateSigner.start_attempt_events_of_attempted
  · intro s hr sid pp hmem
    exact ((reachable_inv s hr).pre_event_db sid pp hmem).1

theorem spec_C1_nonce_safety_witness :
    (sAtt.db.has_attempt { key := sAtt.keys, id := 5, attempt := 0 } = true
      ∧ (SubstrateSigner.start_attempt sAtt 5 0 4).events = sAtt.events)
    ∧ (Reachable sHappy
      ∧ ∀ (sid : SignId) (pp : Nat), evPre sid pp ∈ sHappy.events →
          sHappy.db.has_attempt sid = true) :=
  ⟨⟨by decide, spec_C1_nonce_safety.2.1 sAtt 5 0 4 (by decide)⟩,
   ⟨⟨Store.emptyStore, 7, opsHappy, rfl⟩,
    spec_C1_nonce_safety.2.2 sHappy ⟨Store.emptyStore, 7, opsHappy, rfl⟩⟩⟩

/-- Claim C2 (durability before emit): in every reachable state, any
`SignedBatch` event present in the queue has its `Batch` record and its
`Completed` record already committed to the durable store (the two writes
happen in one transaction before the event is pushed). -/
theorem spec_C2_durability_before_emit :
    ∀ s : SubstrateSigner, Reachable s → ∀ sb : SignedBatch,
      evSigned sb ∈ s.events →
      s.db.completed sb.batch.block = true ∧
      (Map.get s.db.batchKeys sb.batch.block).isSome = true := by
  intro s hr sb hmem
  exact (reachable_inv s hr).signed_db sb hmem

theorem spec_C2_durability_before_emit_witness :
    Reachable sHappy
    ∧ (∀ sb : SignedBatch, evSigned sb ∈ sHappy.events →
        sHappy.db.completed sb.batch.block = true ∧
        (Map.get sHappy.db.batchKeys sb.batch.block).isSome = true) :=
  ⟨⟨Store.emptyStore, 7, opsHappy, rfl⟩,
   spec_C2_durability_before_emit sHappy ⟨Store.emptyStore, 7, opsHappy, rfl⟩⟩

/-- Claim C3 (completion absorbs): once `Completed(B)` is durably set in a
reachable state, a `sign` for B, any `handle` addressed to B, and a
`batch_signed(B)` each return the state unchanged (the repeated `Completed`
put is idempotent), and no step of any kind emits a further event that
mentions B. -/
theorem spec_C3_completion_absorbs :
    ∀ s : SubstrateSigner, Reachable s → ∀ B : Nat, s.db.completed B = true →
      (∀ (b : Batch) (r : Nat), b.block = B → SubstrateSigner.sign s b r = s)
      ∧ (∀ (msg : CoordinatorMessage) (r : Nat), msgBatchId msg = B →
          SubstrateSigner.handle s msg r = Except.ok s)
      ∧ SubstrateSigner.batch_signed s B = s
      ∧ (∀ (op : Op) (s2 : SubstrateSigner), step s op = Except.ok s2 →
          eventsAbout B s2.events = eventsAbout B s.events) := by
  intro s hr B hcomp
  have hInv := reachable_inv s hr
  refine ⟨?_, ?_, ?_, ?_⟩
  · intro b r hb
    exact SubstrateSigner.sign_eq_of_completed s b r (by rw [hb]; exact hcomp)
  · intro msg r hid
    exact SubstrateSigner.handle_completed_noop s msg r B hInv hcomp hid
  · exact SubstrateSigner.batch_signed_completed_noop s B hInv hcomp
  · intro op s2 hst
    exact step_eventsAbout_completed s op s2 B hInv hcomp hst

theorem spec_C3_completion_absorbs_witness :
    Reachable sHappy ∧ sHappy.db.completed 5 = true
    ∧ ((∀ (b : Batch) (r : Nat), b.block = 5 → SubstrateSigner.sign sHappy b r = sHappy)
      ∧ (∀ (msg : CoordinatorMessage) (r : Nat), msgBatchId msg = 5 →
          SubstrateSigner.handle sHappy msg r = Except.ok sHappy)
      ∧ SubstrateSigner.batch_signed sHappy 5 = sHappy
      ∧ (∀ (op : Op) (s2 : SubstrateSigner), step sHappy op = Except.ok s2 →
          eventsAbout 5 s2.events = eventsAbout 5 sHappy.events)) :=
  ⟨⟨Store.emptyStore, 7, opsHappy, rfl⟩, by decide,
   spec_C3_completion_absorbs sHappy ⟨Store.emptyStore, 7, opsHappy, rfl⟩ 5 (by decide)⟩

/-- Claim C4 (id verification gate): an inbound `BatchPreprocesses` or
`BatchShares` whose `SignId.attempt` is not the in-memory attempt for its
batch id (including when that batch id has no in-memory attempt at all) is
dropped: the handler returns the state unchanged, so no session map, no
durable record and no event changes. -/
theorem spec_C4_id_verification_gate :
    ∀ (s : SubstrateSigner) (id : SignId) (pps shs : List (Nat × Wire)) (r1 r2 : Nat),
      Map.get s.attempt id.id ≠ some id.attempt →
      SubstrateSigner.handle s (CoordinatorMessage.batchPreprocesses id pps) r1 =
        Except.ok s
      ∧ SubstrateSigner.handle s (CoordinatorMessage.batchShares id shs) r2 =
        Except.ok s := by
  intro s id pps shs r1 r2 hne
  have hv : SubstrateSigner.verify_id s id = false := by
    by_cases h : SubstrateSigner.verify_id s id = true
    · exact absurd ((SubstrateSigner.verify_id_eq_true_iff s id).1 h) hne
    · rw [Bool.not_eq_true] at h
      exact h
  exact ⟨SubstrateSigner.handle_pre_eq_of_unverified s id pps r1 hv,
    SubstrateSigner.handle_shares_eq_of_unverified s id shs r2 hv⟩

theorem spec_C4_id_verification_gate_witness :
    Map.get sAtt.attempt 5 ≠ some 3
    ∧ SubstrateSigner.handle sAtt
        (CoordinatorMessage.batchPreprocesses { key := 7, id := 5, attempt := 3 } ppWireEx) 1 =
        Except.ok sAtt
    ∧ SubstrateSigner.handle sAtt
        (CoordinatorMessage.batchShares { key := 7, id := 5, attempt := 3 } shWireEx) 2 =
        Except.ok sAtt :=
  ⟨by decide,
   (spec_C4_id_verification_gate sAtt { key := 7, id := 5, attempt := 3 }
     ppWireEx shWireEx 1 2 (by decide)).1,
   (spec_C4_id_verification_gate sAtt { key := 7, id := 5, attempt := 3 }
     ppWireEx shWireEx 1 2 (by decide)).2⟩

/-- Claim C5 (monotonic attempts): when the in-memory attempt for a batch id
is at least the requested index, `start_attempt` returns the state fully
unchanged; and whatever happens, the stored attempt index either stays or
strictly increases to the requested index. -/
theorem spec_C5_monotonic_attempts :
    ∀ (s : SubstrateSigner) (id a rand c : Nat),
      (Map.get s.attempt id = some c → a ≤ c →
        SubstrateSigner.start_attempt s id a rand = s)
      ∧ (∀ c2 : Nat, Map.get s.attempt id = some c →
          Map.get (SubstrateSigner.start_attempt s id a rand).attempt id = some c2 →
          c2 = c ∨ (c < a ∧ c2 = a)) := by
  intro s id a rand c
  constructor
  · intro hc hle
    by_cases hcomp : s.db.completed id = true
    · exact SubstrateSigner.start_attempt_eq_of_completed s id a rand hcomp
    · rw [Bool.not_eq_true] at hcomp
      apply SubstrateSigner.start_attempt_eq_of_guard s id a rand hcomp
      unfold SubstrateSigner.attemptGuard
      rw [hc]
      simp [hle]
  · intro c2 hc hc2
    rcases SubstrateSigner.start_attempt_cases s id a rand with
      h2 | ⟨_, hlt, _, _, h2⟩ | ⟨_, hlt, _, _, h2⟩
    · rw [h2] at hc2
      rw [hc] at hc2
      injection hc2 with he
      exact Or.inl he.symm
    · rw [h2] at hc2
      unfold SubstrateSigner.attemptAborted at hc2
      dsimp only at hc2
      rw [Map.get_insert_self] at hc2
      injection hc2 with he
      exact Or.inr ⟨hlt c hc, he.symm⟩
    · rw [h2] at hc2
      unfold SubstrateSigner.attemptStarted at hc2
      dsimp only at hc2
      rw [Map.get_insert_self] at hc2
      injection hc2 with he
      exact Or.inr ⟨hlt c hc, he.symm⟩

theorem spec_C5_monotonic_attempts_witness :
    Map.get sAtt.attempt 5 = some 0
    ∧ SubstrateSigner.start_attempt sAtt 5 0 9 = sAtt
    ∧ (∀ c2 : Nat, Map.get sAtt.attempt 5 = some 0 →
        Map.get (SubstrateSigner.start_attempt sAtt 5 0 9).attempt 5 = some c2 →
        c2 = 0 ∨ (0 < 0 ∧ c2 = 0)) :=
  ⟨by decide,
   (spec_C5_monotonic_attempts sAtt 5 0 9 0).1 (by decide) (by decide),
   (spec_C5_monotonic_attempts sAtt 5 0 9 0).2⟩

/-- Claim C6 (round ordering): in every reachable state the messages emitted
for one `(batch id, attempt)` pair form a prefix of
`[BatchPreprocess, BatchShare]` (so neither repeats and the share never
precedes the preprocess), at most one `SignedBatch` for a batch id is ever
emitted, a new `BatchShare` for a SignId appears only while handling a
`BatchPreprocesses` message bearing exactly that SignId at the current
in-memory attempt, and a new `SignedBatch` for a batch id appears only while
handling a `BatchShares` message for that batch id at the current attempt. -/
theorem spec_C6_round_ordering :
    ∀ s : SubstrateSigner, Reachable s → ∀ B A : Nat,
      (sidTrace B A s.events = [] ∨ sidTrace B A s.events = [RoundTag.pre] ∨
        sidTrace B A s.events = [RoundTag.pre, RoundTag.shr])
      ∧ signedCount B s.events ≤ 1
      ∧ (∀ (op : Op) (s2 : SubstrateSigner), step s op = Except.ok s2 →
          ∀ (sid : SignId) (sh : Nat), sid.id = B → sid.attempt = A →
          evShr sid sh ∈ s2.events → evShr sid sh ∉ s.events →
          ∃ pps r, op = Op.opHandle (CoordinatorMessage.batchPreprocesses sid pps) r
            ∧ Map.get s.attempt B = some A)
      ∧ (∀ (op : Op) (s2 : SubstrateSigner), step s op = Except.ok s2 →
          ∀ sb : SignedBatch, sb.batch.block = B →
          evSigned sb ∈ s2.events → evSigned sb ∉ s.events →
          ∃ sid shs r, op = Op.opHandle (CoordinatorMessage.batchShares sid shs) r
            ∧ sid.id = B ∧ Map.get s.attempt B = some sid.attempt) := by
  intro s hr B A
  have hInv := reachable_inv s hr
  refine ⟨hInv.trace_shape B A, hInv.signed_once B, ?_, ?_⟩
  · intro op s2 hst sid sh hsid hsatt hmem hnot
    rcases step_events_shapes s op s2 hst with he |
      ⟨id, a, pp, he, _, _⟩ | ⟨sid2, pps, r, sh2, hop, he, hatt⟩ |
      ⟨sid2, shs, r, b, m, parsed, _, he, _, _⟩
    · rw [he] at hmem
      exact absurd hmem hnot
    · rw [he] at hmem
      rcases List.mem_append.1 hmem with hx | hx
      · exact absurd hx hnot
      · simp [evShr, evPre] at hx
    · rw [he] at hmem
      rcases List.mem_append.1 hmem with hx | hx
      · exact absurd hx hnot
      · simp only [List.mem_singleton, evShr,
          SubstrateSignerEvent.processorMessage.injEq,
          ProcessorMessage.batchShare.injEq] at hx
        rcases hx with ⟨hx1, _⟩
        refine ⟨pps, r, by rw [hx1]; exact hop, ?_⟩
        rw [← hx1] at hatt
        rw [hsid, hsatt] at hatt
        exact hatt
    · rw [he] at hmem
      rcases List.mem_append.1 hmem with hx | hx
      · exact absurd hx hnot
      · simp [evShr, evSigned] at hx
  · intro op s2 hst sb hsb hmem hnot
    rcases step_events_shapes s op s2 hst with he |
      ⟨id, a, pp, he, _, _⟩ | ⟨sid2, pps, r, sh2, _, he, _⟩ |
      ⟨sid2, shs, r, b, m, parsed, hop, he, hb, hatt⟩
    · rw [he] at hmem
      exact absurd hmem hnot
    · rw [he] at hmem
      rcases List.mem_append.1 hmem with hx | hx
      · exact absurd hx hnot
      · simp [evSigned, evPre] at hx
    · rw [he] at hmem
      rcases List.mem_append.1 hmem with hx | hx
      · exact absurd hx hnot
      · simp [evSigned, evShr] at hx
    · rw [he] at hmem
      rcases List.mem_append.1 hmem with hx | hx
      · exact absurd hx hnot
      · simp only [List.mem_singleton, evSigned,
          SubstrateSignerEvent.signedBatch.injEq] at hx
        have hbl : b.block = sid2.id := hInv.signable_block sid2.id b hb
        have hid : sid2.id = B := by
          rw [← hsb, hx]
          exact hbl.symm
        refine ⟨sid2, shs, r, hop, hid, ?_⟩
        rw [hid] at hatt
        exact hatt

theorem spec_C6_round_ordering_witness :
    Reachable sHappy
    ∧ ((sidTrace 5 0 sHappy.events = [] ∨ sidTrace 5 0 sHappy.events = [RoundTag.pre] ∨
        sidTrace 5 0 sHappy.events = [RoundTag.pre, RoundTag.shr])
      ∧ signedCount 5 sHappy.events ≤ 1
      ∧ (∀ (op : Op) (s2 : SubstrateSigner), step sHappy op = Except.ok s2 →
          ∀ (sid : SignId) (sh : Nat), sid.id = 5 → sid.attempt = 0 →
          evShr sid sh ∈ s2.events → evShr sid sh ∉ sHappy.events →
          ∃ pps r, op = Op.opHandle (CoordinatorMessage.batchPreprocesses sid pps) r
            ∧ Map.get sHappy.attempt 5 = some 0)
      ∧ (∀ (op : Op) (s2 : SubstrateSigner), step sHappy op = Except.ok s2 →
          ∀ sb : SignedBatch, sb.batch.block = 5 →
          evSigned sb ∈ s2.events → evSigned sb ∉ sHappy.events →
          ∃ sid shs r, op = Op.opHandle (CoordinatorMessage.batchShares sid shs) r
            ∧ sid.id = 5 ∧ Map.get sHappy.attempt 5 = some sid.attempt)) :=
  ⟨⟨Store.emptyStore, 7, opsHappy, rfl⟩,
   spec_C6_round_ordering sHappy ⟨Store.emptyStore, 7, opsHappy, rfl⟩ 5 0⟩

/-- Claim C7 (batch_signed postcondition): after `batch_signed(block)` the
`Completed` record for the block is durably set, all four session maps no
longer bind the block, and the events queue is untouched. -/
theorem spec_C7_batch_signed_post :
    ∀ (s : SubstrateSigner) (block : Nat),
      (SubstrateSigner.batch_signed s block).db.completed block = true
      ∧ Map.get (SubstrateSigner.batch_signed s block).signable block = none
      ∧ Map.get (SubstrateSigner.batch_signed s block).attempt block = none
      ∧ Map.get (SubstrateSigner.batch_signed s block).preprocessing block = none
      ∧ Map.get (SubstrateSigner.batch_signed s block).signing block = none
      ∧ (SubstrateSigner.batch_signed s block).events = s.events := by
  intro s block
  unfold SubstrateSigner.batch_signed
  refine ⟨?_, ?_, ?_, ?_, ?_, rfl⟩ <;> dsimp only
  · exact Store.completed_complete_self s.db block
  · exact Map.get_remove_self _ _
  · exact Map.get_remove_self _ _
  · exact Map.get_remove_self _ _
  · exact Map.get_remove_self _ _

/-- Claim C8 (shares without a signing machine): when a `BatchShares`
message passes id verification but no round-two machine exists, the handler
dies on the `never preprocessed yet signing` panic exactly when a round-one
machine is still present; when neither machine exists it drops the message
with no state change. -/
theorem spec_C8_shares_without_machine :
    ∀ (s : SubstrateSigner) (id : SignId) (shs : List (Nat × Wire)) (r : Nat),
      Map.get s.attempt id.id = some id.attempt →
      Map.get s.signing id.id = none →
      (SubstrateSigner.handle s (CoordinatorMessage.batchShares id shs) r =
          Except.error SignerFault.neverPreprocessedYetSigning ↔
        Map.contains s.preprocessing id.id = true)
      ∧ (Map.contains s.preprocessing id.id = false →
          SubstrateSigner.handle s (CoordinatorMessage.batchShares id shs) r =
            Except.ok s) := by
  intro s id shs r hv0 hm
  have hv : SubstrateSigner.verify_id s id = true :=
    (SubstrateSigner.verify_id_eq_true_iff s id).2 hv0
  constructor
  · constructor
    · intro he
      by_cases hpre : Map.contains s.preprocessing id.id = true
      · exact hpre
      · rw [Bool.not_eq_true] at hpre
        rw [SubstrateSigner.handle_shares_eq_of_no_machine s id shs r hv hm hpre] at he
        simp at he
    · intro hpre
      exact SubstrateSigner.handle_shares_eq_of_breach s id shs r hv hm hpre
  · intro hpre
    exact SubstrateSigner.handle_shares_eq_of_no_machine s id shs r hv hm hpre

theorem spec_C8_shares_without_machine_witness :
    Map.get sAtt.attempt 5 = some 0
    ∧ Map.get sAtt.signing 5 = none
    ∧ ((SubstrateSigner.handle sAtt (CoordinatorMessage.batchShares sidEx shWireEx) 1 =
          Except.error SignerFault.neverPreprocessedYetSigning ↔
        Map.contains sAtt.preprocessing 5 = true)
      ∧ (Map.contains sAtt.preprocessing 5 = false →
          SubstrateSigner.handle sAtt (CoordinatorMessage.batchShares sidEx shWireEx) 1 =
            Except.ok sAtt)) :=
  ⟨by decide, by decide,
   spec_C8_shares_without_machine sAtt sidEx shWireEx 1 (by decide) (by decide)⟩

/-- Claim C9 (duplicate sign is a no-op): signing the same batch twice in a
row returns exactly the state of the first call: the attempt index does not
advance, no second preprocess event is pushed, and the store is unchanged. -/
theorem spec_C9_duplicate_sign :
    ∀ (s : SubstrateSigner) (batch : Batch) (r1 r2 : Nat),
      SubstrateSigner.sign (SubstrateSigner.sign s batch r1) batch r2 =
        SubstrateSigner.sign s batch r1 := by
  intro s batch r1 r2
  by_cases hc : s.db.completed batch.block = true
  · rw [SubstrateSigner.sign_eq_of_completed s batch r1 hc,
      SubstrateSigner.sign_eq_of_completed s batch r2 hc]
  · rw [Bool.not_eq_true] at hc
    rw [SubstrateSigner.sign_eq_of_live s batch r1 hc]
    have hct : (SubstrateSigner.start_attempt
        { s with signable := Map.insert s.signable batch.block batch }
        batch.block 0 r1).db.completed batch.block = false := by
      rw [SubstrateSigner.start_attempt_completed_eq]
      exact hc
    rcases SubstrateSigner.start_attempt_attempt_after
        { s with signable := Map.insert s.signable batch.block batch }
        batch.block 0 r1 hc (Map.contains_insert_self _ _ _) with ⟨c, hcget⟩
    rw [SubstrateSigner.sign_eq_of_live _ batch r2 hct]
    have hins : Map.insert (SubstrateSigner.start_attempt
        { s with signable := Map.insert s.signable batch.block batch }
        batch.block 0 r1).signable batch.block batch =
        (SubstrateSigner.start_attempt
        { s with signable := Map.insert s.signable batch.block batch }
        batch.block 0 r1).signable := by
      rw [SubstrateSigner.start_attempt_signable_eq]
      exact Map.insert_insert_self s.signable batch.block batch
    rw [hins]
    apply SubstrateSigner.start_attempt_eq_of_guard _ _ _ _ hct
    unfold SubstrateSigner.attemptGuard
    rw [hcget]
    simp

/-- Claim C10 (session-map coherence): in every reachable state a live
round-one or round-two machine for a batch id implies `signable` and
`attempt` entries for it, the two machines are never both present, and a
step can only die on the two deliberate panics (malicious peer data, or
shares while a round-one machine is still live) — never on the `signable`
index, the `unwrap`, or the three trailing asserts. -/
theorem spec_C10_session_coherence :
    ∀ s : SubstrateSigner, Reachable s →
      (∀ B : Nat,
        (Map.contains s.preprocessing B = true →
          Map.contains s.signable B = true ∧ Map.contains s.attempt B = true)
        ∧ (Map.contains s.signing B = true →
          Map.contains s.signable B = true ∧ Map.contains s.attempt B = true)
        ∧ ¬(Map.contains s.preprocessing B = true ∧ Map.contains s.signing B = true))
      ∧ (∀ (op : Op) (p : SignerFault), step s op = Except.error p →
          p = SignerFault.todoMalicious ∨ p = SignerFault.neverPreprocessedYetSigning) := by
  intro s hr
  have hInv := reachable_inv s hr
  constructor
  · intro B
    refine ⟨fun h => ⟨hInv.pre_signable B h, hInv.pre_attempt B h⟩,
      fun h => ⟨hInv.sig_signable B h, hInv.sig_attempt B h⟩, ?_⟩
    rintro ⟨h1, h2⟩
    cases h2.symm.trans (hInv.mutex B h1)
  · intro op p hst
    exact step_error_kinds s op p hInv hst

theorem spec_C10_session_coherence_witness :
    Reachable sHappy
    ∧ ((∀ B : Nat,
        (Map.contains sHappy.preprocessing B = true →
          Map.contains sHappy.signable B = true ∧ Map.contains sHappy.attempt B = true)
        ∧ (Map.contains sHappy.signing B = true →
          Map.contains sHappy.signable B = true ∧ Map.contains sHappy.attempt B = true)
        ∧ ¬(Map.contains sHappy.preprocessing B = true ∧
            Map.contains sHappy.signing B = true))
      ∧ (∀ (op : Op) (p : SignerFault), step sHappy op = Except.error p →
          p = SignerFault.todoMalicious ∨ p = SignerFault.neverPreprocessedYetSigning)) :=
  ⟨⟨Store.emptyStore, 7, opsHappy, rfl⟩,
   spec_C10_session_coherence sHappy ⟨Store.emptyStore, 7, opsHappy, rfl⟩⟩
